import Mathlib

/-!
# Shallow embedding of the giallarhorn `OneShotAudio` controller

This development embeds the voice admission and stealing controller of the
giallarhorn audio library (`OneShotAudio`): policy resolution (`getPolicy`),
admission (`play`), capacity checking and voice stealing (`ensureCapacity`,
the source's `_ensureCapacity`), the natural-end completion callback
(`handleEnd`), and the query interface (`getActiveCount`).

Modelling conventions:
* JavaScript `Set` / `Map` objects (which iterate in insertion order) are
  embedded as insertion-ordered lists and association lists; `Set.add`
  appends, `Set.delete` removes the stored element, `Map.set` overwrites the
  entry for an existing key and appends for a fresh key.
* Clock readings, volumes, intervals and priorities are rationals (`Rat`);
  the `?? -Infinity` default for `lastStartAt` is modelled with `Option`
  (a missing entry never rate-limits, exactly as `now - (-∞) < minInterval`
  is false).
* A playback node's live state that the controller observes (its current
  gain value) is carried on the `Voice` record as `volume`; the gain ramp
  and the scheduled stop of a stolen voice are reported in a `StealEffect`
  record instead of mutating a platform object.
* Voice identity (JS object identity) is an `id : Nat` drawn from a
  monotone counter in the state.
-/

namespace Giallarhorn

-- Rational arithmetic in Batteries is shipped `@[irreducible]`; reopening it
-- lets concrete runs of the controller evaluate inside `decide`.
attribute [local semireducible] Rat.add Rat.sub Rat.mul Rat.inv Rat.ofScientific

/-- The three steal strategies accepted by the controller
(`'ignore' | 'stealOldest' | 'stealQuietest'`). -/
inductive StealStrategy where
  | ignore
  | stealOldest
  | stealQuietest
deriving DecidableEq, Repr

/-- The per-track default spatial settings (`OneShotSpatialOptions`):
3D position, distance model and directional cone parameters, each
optional. -/
structure SpatialOptions where
  position : Option (Rat × Rat × Rat)
  refDistance : Option Rat
  maxDistance : Option Rat
  rolloffFactor : Option Rat
  coneInnerAngle : Option Rat
  coneOuterAngle : Option Rat
  coneOuterGain : Option Rat
deriving DecidableEq, Repr

/-- A resolved per-track policy: the five behavioral fields are always
present after resolution; `spatialDefaults` stays optional (the source's
resolved object carries `p.spatialDefaults ?? undefined`). -/
structure Policy where
  maxVoices : Nat
  minInterval : Rat
  priority : Rat
  stealStrategy : StealStrategy
  stealFadeMs : Rat
  spatialDefaults : Option SpatialOptions
deriving DecidableEq, Repr

/-- A partial policy, as supplied in `config.tracks[name]` or
`config.global.defaultPolicy`: absent fields are `none`. -/
structure PartialPolicy where
  maxVoices : Option Nat
  minInterval : Option Rat
  priority : Option Rat
  stealStrategy : Option StealStrategy
  stealFadeMs : Option Rat
  spatialDefaults : Option SpatialOptions
deriving DecidableEq, Repr

/-- The empty partial policy (`{}` in the source). -/
def PartialPolicy.empty : PartialPolicy :=
  { maxVoices := none, minInterval := none, priority := none
  , stealStrategy := none, stealFadeMs := none, spatialDefaults := none }

/-- An active voice: `{ name, node, priority }` in the source, plus the node
identity (`id`) and the node's current output gain value (`volume`, the
source reads it as `v.node.volume`). -/
structure Voice where
  id : Nat
  name : String
  priority : Rat
  volume : Rat
deriving DecidableEq, Repr

/-- Association-list lookup, mirroring `Map.get` (first entry wins). -/
def alookup {α : Type} : List (String × α) → String → Option α
  | [], _ => none
  | (k', v) :: t, k => if k' = k then some v else alookup t k

/-- Association-list update, mirroring `Map.set`: overwrite the entry for an
existing key in place, append a new entry otherwise. -/
def aset {α : Type} : List (String × α) → String → α → List (String × α)
  | [], k, v => [(k, v)]
  | (k', v') :: t, k, v =>
      if k' = k then (k', v) :: t else (k', v') :: aset t k v

/-- Association-list removal, mirroring `Map.delete`. -/
def adel {α : Type} : List (String × α) → String → List (String × α)
  | [], _ => []
  | (k', v') :: t, k => if k' = k then t else (k', v') :: adel t k

/-- The controller's process-wide state: configuration fixed by `init`
(`maxGlobalVoices`, `defaultPolicy`, `trackPolicies`, the manager's loaded
`buffers`) plus the mutable registry (`active`, `activeByTrack`,
`lastStartAt`) and the fresh-identity counter for created nodes. -/
structure OneShotState where
  maxGlobalVoices : Nat
  defaultPolicy : Policy
  trackPolicies : List (String × PartialPolicy)
  buffers : List String
  active : List Voice
  activeByTrack : List (String × List Voice)
  lastStartAt : List (String × Rat)
  nextId : Nat
deriving DecidableEq, Repr

/-- The `init` configuration: `config.global.maxGlobalVoices`,
`config.global.defaultPolicy`, `config.tracks`, and the set of track names
with a loaded buffer in the `audioManager`. -/
structure InitConfig where
  maxGlobalVoices : Option Nat
  defaultPolicy : PartialPolicy
  tracks : List (String × PartialPolicy)
  buffers : List String
deriving DecidableEq, Repr

/-- `OneShotAudio.init`: stores the configuration, building the default
policy by spreading `global.defaultPolicy` over the hardcoded fallbacks
(`maxVoices: 8, minInterval: 0.02, priority: 0, stealStrategy: 'ignore',
stealFadeMs: 120`), and resets the registry. -/
def OneShotAudio.init (cfg : InitConfig) : OneShotState :=
  { maxGlobalVoices := cfg.maxGlobalVoices.getD 32
  , defaultPolicy :=
      { maxVoices := cfg.defaultPolicy.maxVoices.getD 8
      , minInterval := cfg.defaultPolicy.minInterval.getD (2/100)
      , priority := cfg.defaultPolicy.priority.getD 0
      , stealStrategy := cfg.defaultPolicy.stealStrategy.getD .ignore
      , stealFadeMs := cfg.defaultPolicy.stealFadeMs.getD 120
      , spatialDefaults := cfg.defaultPolicy.spatialDefaults }
  , trackPolicies := cfg.tracks
  , buffers := cfg.buffers
  , active := []
  , activeByTrack := []
  , lastStartAt := []
  , nextId := 0 }

/-- `OneShotAudio.getPolicy(name)`: merge of the track's partial policy
over the stored default policy — `p.field ?? d.field` for the five
behavioral fields, but `spatialDefaults: p.spatialDefaults ?? undefined`:
the track's value or nothing, never the default policy's. -/
def OneShotAudio.getPolicy (s : OneShotState) (name : String) : Policy :=
  let p := (alookup s.trackPolicies name).getD PartialPolicy.empty
  let d := s.defaultPolicy
  { maxVoices := p.maxVoices.getD d.maxVoices
  , minInterval := p.minInterval.getD d.minInterval
  , priority := p.priority.getD d.priority
  , stealStrategy := p.stealStrategy.getD d.stealStrategy
  , stealFadeMs := p.stealFadeMs.getD d.stealFadeMs
  , spatialDefaults := p.spatialDefaults }

/-- `OneShotAudio.getActiveCount(name?)`: global active count when no track
name is given, else the size of that track's set (`0` when absent). -/
def OneShotAudio.getActiveCount (s : OneShotState) (name : Option String) : Nat :=
  match name with
  | none => s.active.length
  | some n => ((alookup s.activeByTrack n).getD []).length

/-- The `stealQuietest` score: `v.priority * -1000 + v.node.volume`. -/
def OneShotAudio.score (v : Voice) : Rat :=
  v.priority * (-1000) + v.volume

/-- One iteration of the `stealQuietest` loop: keep the current
`(victim, minScore)` pair unless the next voice scores strictly below the
running minimum (an empty accumulator plays the role of
`minScore = Infinity`, below which every score lies). -/
def OneShotAudio.quietStep (acc : Option (Voice × Rat)) (v : Voice) :
    Option (Voice × Rat) :=
  match acc with
  | none => some (v, OneShotAudio.score v)
  | some (w, m) =>
      if OneShotAudio.score v < m then some (v, OneShotAudio.score v)
      else some (w, m)

/-- The `stealQuietest` scan: iterate over all globally active voices in
insertion order keeping the first voice whose score is strictly below the
running minimum. -/
def OneShotAudio.pickQuietest (active : List Voice) : Option Voice :=
  (active.foldl OneShotAudio.quietStep none).map Prod.fst

/-- `pickVictim` inside `_ensureCapacity`: under `stealOldest` the first
voice of the track's set, falling back to the first globally active voice;
under `stealQuietest` the minimum-score voice of the global scan. -/
def OneShotAudio.pickVictim (active trackSet : List Voice)
    (strategy : StealStrategy) : Option Voice :=
  match strategy with
  | .stealOldest =>
      match trackSet.head? with
      | some v => some v
      | none => active.head?
  | .stealQuietest => OneShotAudio.pickQuietest active
  | .ignore => none

/-- Removal of a steal victim from the registry (`_ensureCapacity` lines
"Free slot immediately so new sound can start"): delete from the global set;
if the victim's track has an entry, delete the victim from it and drop the
entry when it becomes empty. -/
def OneShotAudio.evict (s : OneShotState) (victim : Voice) : OneShotState :=
  let abt :=
    match alookup s.activeByTrack victim.name with
    | none => s.activeByTrack
    | some l =>
        let l' := l.erase victim
        if l'.length = 0 then adel s.activeByTrack victim.name
        else aset s.activeByTrack victim.name l'
  { s with active := s.active.erase victim, activeByTrack := abt }

/-- The observable effect of a steal on the victim's playback node: the gain
is ramped linearly from its current value at `rampStart` to
`rampTargetValue` at `rampEndTime`, and `node.stop` is invoked with a delay
of `stopAt - t` clamped at zero, which `AudioItem.stop` turns into
`source.stop(currentTime + delay)`, i.e. an absolute stop at `stopTime`. -/
structure StealEffect where
  victim : Voice
  rampStart : Rat
  rampTargetValue : Rat
  rampEndTime : Rat
  stopTime : Rat
deriving DecidableEq, Repr

/-- `OneShotAudio._ensureCapacity(policy, trackSet, newPriority)` at clock
reading `now`: immediate success when neither limit is reached; failure
under `'ignore'`; otherwise pick a victim, fail when there is none or when
its priority strictly exceeds the new voice's, else fade it out, remove it
from both registries and schedule its stop. Returns the success flag, the
updated state, and the steal effect when a victim was evicted. -/
def OneShotAudio.ensureCapacity (s : OneShotState) (policy : Policy)
    (trackSet : List Voice) (newPriority : Rat) (now : Rat) :
    Bool × OneShotState × Option StealEffect :=
  let globalFull := s.maxGlobalVoices ≤ s.active.length
  let trackFull := policy.maxVoices ≤ trackSet.length
  if ¬globalFull ∧ ¬trackFull then (true, s, none)
  else if policy.stealStrategy = .ignore then (false, s, none)
  else
    match OneShotAudio.pickVictim s.active trackSet policy.stealStrategy with
    | none => (false, s, none)
    | some victim =>
        if newPriority < victim.priority then (false, s, none)
        else
          let fadeMs := max 0 policy.stealFadeMs
          let stopAt := now + fadeMs / 1000
          let eff : StealEffect :=
            { victim := victim
            , rampStart := now
            , rampTargetValue := 0
            , rampEndTime := stopAt
            , stopTime := now + (if 0 < stopAt - now then stopAt - now else 0) }
          (true, OneShotAudio.evict s victim, some eff)

/-- The per-call options consumed by the admission logic:
`options.volume`, `options.priority`, `options.minIntervalOverride`. -/
structure PlayOptions where
  volume : Option Rat
  priority : Option Rat
  minIntervalOverride : Option Rat
deriving DecidableEq, Repr

/-- The rate-limit gate of `play`:
`now - (lastStartAt.get(name) ?? -Infinity) < (options.minIntervalOverride ??
policy.minInterval)` — a track never played cannot be rate-limited. -/
def OneShotAudio.rateLimited (s : OneShotState) (name : String)
    (opts : PlayOptions) (now : Rat) : Bool :=
  match alookup s.lastStartAt name with
  | some last =>
      decide (now - last <
        opts.minIntervalOverride.getD (OneShotAudio.getPolicy s name).minInterval)
  | none => false

/-- The registration step of a successful `play`: record
`lastStartAt[name] = now`, append the voice to the global set and to the
track's (possibly fresh) set, and advance the identity counter. -/
def OneShotAudio.registerVoice (s1 : OneShotState) (name : String)
    (voice : Voice) (now : Rat) : OneShotState :=
  { s1 with
    lastStartAt := aset s1.lastStartAt name now
  , active := s1.active ++ [voice]
  , activeByTrack := aset s1.activeByTrack name
      (((alookup s1.activeByTrack name).getD []) ++ [voice])
  , nextId := voice.id + 1 }

/-- `OneShotAudio.play(name, options)` at clock reading `now`. Gates in
order: buffer existence, rate limiting, capacity. On success a node is
created (drawing the next identity), its gain is set to `options.volume`
(else the node's default gain `1`), and the voice is registered. Returns
the admitted voice (`null` on rejection), the new state and the steal
effect when a victim was evicted. -/
def OneShotAudio.play (s : OneShotState) (name : String) (opts : PlayOptions)
    (now : Rat) : Option Voice × OneShotState × Option StealEffect :=
  if name ∈ s.buffers then
    if OneShotAudio.rateLimited s name opts now then (none, s, none)
    else
      let policy := OneShotAudio.getPolicy s name
      let trackSet := (alookup s.activeByTrack name).getD []
      let newPriority := opts.priority.getD policy.priority
      match OneShotAudio.ensureCapacity s policy trackSet newPriority now with
      | (false, s1, eff) => (none, s1, eff)
      | (true, s1, eff) =>
          let voice : Voice :=
            { id := s.nextId, name := name, priority := newPriority
            , volume := opts.volume.getD 1 }
          (some voice, OneShotAudio.registerVoice s1 name voice now, eff)
  else (none, s, none)

/-- The natural-end completion callback `handleEnd` installed by `play`:
delete the voice from the global set and from its track's (live) set, and
drop the track entry when the set becomes empty. -/
def OneShotAudio.handleEnd (s : OneShotState) (voice : Voice) : OneShotState :=
  let ts := (alookup s.activeByTrack voice.name).getD []
  let ts' := ts.erase voice
  let abt1 :=
    match alookup s.activeByTrack voice.name with
    | some _ => aset s.activeByTrack voice.name ts'
    | none => s.activeByTrack
  let abt2 := if ts'.length = 0 then adel abt1 voice.name else abt1
  { s with active := s.active.erase voice, activeByTrack := abt2 }

/-- The states reachable from `init` by admission calls and natural-end
completion callbacks (a completion callback only ever fires for a voice
that is still registered: a stolen voice has its callback swapped out). -/
inductive Reachable : OneShotState → Prop where
  | init (cfg : InitConfig) : Reachable (OneShotAudio.init cfg)
  | play (s : OneShotState) (name : String) (opts : PlayOptions) (now : Rat) :
      Reachable s → Reachable (OneShotAudio.play s name opts now).2.1
  | ended (s : OneShotState) (voice : Voice) :
      Reachable s → voice ∈ s.active → Reachable (OneShotAudio.handleEnd s voice)

/-- A run of `play` calls on a single track in which every call is admitted
(returns a voice), threading the state through. -/
inductive PlaysOk (name : String) :
    OneShotState → List (PlayOptions × Rat) → OneShotState → Prop where
  | nil (s : OneShotState) : PlaysOk name s [] s
  | cons (s : OneShotState) (opts : PlayOptions) (now : Rat) (v : Voice)
      (s1 : OneShotState) (eff : Option StealEffect)
      (rest : List (PlayOptions × Rat)) (s2 : OneShotState) :
      OneShotAudio.play s name opts now = (some v, s1, eff) →
      PlaysOk name s1 rest s2 →
      PlaysOk name s ((opts, now) :: rest) s2

/-- Policy resolution as worded by the spec, for comparison with
`OneShotAudio.getPolicy` over an initialized state: merge the
track-specific partial policy over the global default policy, field by
field — the track value wins when present, else the global default's value,
else the hardcoded fallback `maxVoices=8`, `minInterval=0.02`,
`priority=0`, `stealStrategy='ignore'`, `stealFadeMs=120`; the optional
`spatialDefaults` has no hardcoded fallback, so it is the track's value
when present, else the global default's. -/
def resolveSpec (tracks : List (String × PartialPolicy))
    (globalDefault : PartialPolicy) (name : String) : Policy :=
  let p := (alookup tracks name).getD PartialPolicy.empty
  { maxVoices := p.maxVoices.getD (globalDefault.maxVoices.getD 8)
  , minInterval := p.minInterval.getD (globalDefault.minInterval.getD (2/100))
  , priority := p.priority.getD (globalDefault.priority.getD 0)
  , stealStrategy := p.stealStrategy.getD (globalDefault.stealStrategy.getD .ignore)
  , stealFadeMs := p.stealFadeMs.getD (globalDefault.stealFadeMs.getD 120)
  , spatialDefaults := p.spatialDefaults.orElse fun _ => globalDefault.spatialDefaults }

/-- Empty play options (`play(name)` with no overrides). -/
def exOpts : PlayOptions := ⟨none, none, none⟩

/-- Example configuration: one loaded track `"a"`, a single global slot,
one voice per track, no rate limit, `stealOldest`. -/
def exCfgSteal : InitConfig :=
  ⟨some 1, ⟨some 1, some 0, none, some .stealOldest, none, none⟩, [], ["a"]⟩

/-- The state after admitting one voice on track `"a"` under `exCfgSteal`. -/
def exStealState : OneShotState :=
  (OneShotAudio.play (OneShotAudio.init exCfgSteal) "a" exOpts 0).2.1

/-- The state after admitting one priority-5 voice on `"a"` under
`exCfgSteal`. -/
def exHiState : OneShotState :=
  (OneShotAudio.play (OneShotAudio.init exCfgSteal) "a" ⟨none, some 5, none⟩ 0).2.1

/-- Example configuration: one loaded track, everything at the hardcoded
defaults. -/
def exCfgDefault : InitConfig := ⟨none, ⟨none, none, none, none, none, none⟩, [], ["a"]⟩

/-- Example configuration: one loaded track limited to one voice, no rate
limit, default `'ignore'` strategy. -/
def exCfgIgnore : InitConfig := ⟨none, ⟨some 1, some 0, none, none, none, none⟩, [], ["a"]⟩

/-- A registry holding the spec's `stealQuietest` example: three active
voices on track `"t"` with priorities [2,2,1] and volumes [0.9,0.1,1.0],
and the global limit reached. -/
def exQuietState : OneShotState :=
  ⟨3, ⟨3, 0, 0, .stealQuietest, 120, none⟩, [], ["t"],
    [⟨0, "t", 2, 9/10⟩, ⟨1, "t", 2, 1/10⟩, ⟨2, "t", 1, 1⟩],
    [("t", [⟨0, "t", 2, 9/10⟩, ⟨1, "t", 2, 1/10⟩, ⟨2, "t", 1, 1⟩])],
    [("t", 0)], 3⟩

/-! ## Association-list lemmas -/

/-- Keys of an association list. -/
def akeys {α : Type} (l : List (String × α)) : List String := l.map Prod.fst

/-- Total size of the per-track registry: the sum of the sizes of all
track sets. -/
def sumLens (l : List (String × List Voice)) : Nat :=
  (l.map fun p => p.2.length).sum

/-- A voice list ordered by strictly increasing identity: the shape of every
insertion-ordered registry set, since voices are admitted with identities
drawn from a monotone counter. -/
def idSorted (l : List Voice) : Prop :=
  l.Pairwise (fun a b => a.id < b.id)

/-- The well-formedness invariant of the controller's registry: the global
set and every track set are insertion-ordered without duplicates, track sets
are non-empty, hold only voices of their own track, and partition the global
set; every identity is below the counter. -/
structure RegistryInv (s : OneShotState) : Prop where
  activeSorted : idSorted s.active
  keysNodup : (akeys s.activeByTrack).Nodup
  tracksNe : ∀ p ∈ s.activeByTrack, p.2 ≠ []
  tracksName : ∀ p ∈ s.activeByTrack, ∀ v ∈ p.2, v.name = p.1
  tracksMem : ∀ p ∈ s.activeByTrack, ∀ v ∈ p.2, v ∈ s.active
  tracksSorted : ∀ p ∈ s.activeByTrack, idSorted p.2
  member : ∀ v ∈ s.active, ∃ l, alookup s.activeByTrack v.name = some l ∧ v ∈ l
  fresh : ∀ v ∈ s.active, v.id < s.nextId
  counts : s.active.length = sumLens s.activeByTrack

theorem alookup_aset_self {α : Type} (l : List (String × α)) (k : String) (v : α) :
    alookup (aset l k v) k = some v := by
  induction l with
  | nil => simp [aset, alookup]
  | cons p t ih =>
      obtain ⟨k', v'⟩ := p
      by_cases h : k' = k <;> simp [aset, alookup, h, ih]

theorem alookup_aset_ne {α : Type} (l : List (String × α)) (k k' : String) (v : α)
    (h : k' ≠ k) : alookup (aset l k v) k' = alookup l k' := by
  induction l with
  | nil => simp [aset, alookup, Ne.symm h]
  | cons p t ih =>
      obtain ⟨k₀, v₀⟩ := p
      by_cases h0 : k₀ = k
      · have hk0 : ¬k₀ = k' := by
          rw [h0]
          exact Ne.symm h
        simp [aset, alookup, h0, hk0, Ne.symm h]
      · by_cases h1 : k₀ = k' <;> simp [aset, alookup, h0, h1, ih, h, Ne.symm h]

theorem alookup_adel_ne {α : Type} (l : List (String × α)) (k k' : String)
    (h : k' ≠ k) : alookup (adel l k) k' = alookup l k' := by
  induction l with
  | nil => simp [adel]
  | cons p t ih =>
      obtain ⟨k₀, v₀⟩ := p
      by_cases h0 : k₀ = k
      · have hk0 : ¬k₀ = k' := by
          rw [h0]
          exact Ne.symm h
        simp [adel, alookup, h0, hk0, Ne.symm h]
      · by_cases h1 : k₀ = k' <;> simp [adel, alookup, h0, h1, ih, h, Ne.symm h]

theorem adel_sublist {α : Type} (l : List (String × α)) (k : String) :
    (adel l k).Sublist l := by
  induction l with
  | nil => simp [adel]
  | cons p t ih =>
      obtain ⟨k₀, v₀⟩ := p
      by_cases h0 : k₀ = k
      · simp only [adel, if_pos h0]
        exact List.sublist_cons_self _ _
      · simp only [adel, if_neg h0]
        exact ih.cons₂ _

theorem adel_aset {α : Type} (l : List (String × α)) (k : String) (v : α) :
    adel (aset l k v) k = adel l k := by
  induction l with
  | nil => simp [aset, adel]
  | cons p t ih =>
      obtain ⟨k₀, v₀⟩ := p
      by_cases h0 : k₀ = k <;> simp [aset, adel, h0, ih]

theorem akeys_aset_of_mem {α : Type} (l : List (String × α)) (k : String) (v v' : α)
    (h : alookup l k = some v') : akeys (aset l k v) = akeys l := by
  induction l with
  | nil => simp [alookup] at h
  | cons p t ih =>
      obtain ⟨k₀, v₀⟩ := p
      by_cases h0 : k₀ = k
      · simp [aset, akeys, h0]
      · simp [alookup, h0] at h
        simp [aset, akeys, h0] at ih ⊢
        exact ih h

theorem akeys_aset_of_none {α : Type} (l : List (String × α)) (k : String) (v : α)
    (h : alookup l k = none) : akeys (aset l k v) = akeys l ++ [k] := by
  induction l with
  | nil => simp [aset, akeys]
  | cons p t ih =>
      obtain ⟨k₀, v₀⟩ := p
      by_cases h0 : k₀ = k
      · simp [alookup, h0] at h
      · simp [alookup, h0] at h
        simp [aset, akeys, h0] at ih ⊢
        exact ih h

theorem alookup_none_not_mem_akeys {α : Type} (l : List (String × α)) (k : String)
    (h : alookup l k = none) : k ∉ akeys l := by
  induction l with
  | nil => simp [akeys]
  | cons p t ih =>
      obtain ⟨k₀, v₀⟩ := p
      by_cases h0 : k₀ = k
      · simp [alookup, h0] at h
      · simp [alookup, h0] at h
        simp [akeys] at ih ⊢
        exact ⟨fun hh => h0 hh.symm, ih h⟩

theorem aset_mem {α : Type} (l : List (String × α)) (k : String) (v : α)
    (hk : (akeys l).Nodup)
    (p : String × α) (hp : p ∈ aset l k v) : p = (k, v) ∨ (p ∈ l ∧ p.1 ≠ k) := by
  induction l with
  | nil =>
      simp [aset] at hp
      exact Or.inl hp
  | cons q t ih =>
      obtain ⟨k₀, v₀⟩ := q
      rw [akeys, List.map_cons, List.nodup_cons] at hk
      by_cases h0 : k₀ = k
      · subst h0
        simp only [aset, if_pos rfl] at hp
        rcases List.mem_cons.mp hp with hp | hp
        · exact Or.inl hp
        · refine Or.inr ⟨List.mem_cons_of_mem _ hp, fun hh => hk.1 ?_⟩
          rw [← hh]
          exact List.mem_map.mpr ⟨p, hp, rfl⟩
      · simp only [aset, if_neg h0] at hp
        rcases List.mem_cons.mp hp with hp | hp
        · subst hp
          exact Or.inr ⟨List.mem_cons_self _ _, h0⟩
        · rcases ih hk.2 hp with h | ⟨h1, h2⟩
          · exact Or.inl h
          · exact Or.inr ⟨List.mem_cons_of_mem _ h1, h2⟩

theorem alookup_of_mem {α : Type} (l : List (String × α)) (p : String × α)
    (hk : (akeys l).Nodup) (hp : p ∈ l) : alookup l p.1 = some p.2 := by
  induction l with
  | nil => simp at hp
  | cons q t ih =>
      obtain ⟨k₀, v₀⟩ := q
      rw [akeys, List.map_cons, List.nodup_cons] at hk
      rcases List.mem_cons.mp hp with hp | hp
      · subst hp
        simp [alookup]
      · have hne : k₀ ≠ p.1 := by
          intro hh
          apply hk.1
          rw [hh]
          exact List.mem_map.mpr ⟨p, hp, rfl⟩
        simp only [alookup, if_neg hne]
        exact ih hk.2 hp

theorem sumLens_aset_some (l : List (String × List Voice)) (k : String)
    (v w : List Voice) (h : alookup l k = some w) :
    sumLens (aset l k v) + w.length = sumLens l + v.length := by
  induction l with
  | nil => simp [alookup] at h
  | cons p t ih =>
      obtain ⟨k₀, v₀⟩ := p
      by_cases h0 : k₀ = k
      · simp [alookup, h0] at h
        subst h
        simp [aset, sumLens, h0]
        omega
      · simp [alookup, h0] at h
        have := ih h
        simp [aset, sumLens, h0] at this ⊢
        omega

theorem sumLens_aset_none (l : List (String × List Voice)) (k : String)
    (v : List Voice) (h : alookup l k = none) :
    sumLens (aset l k v) = sumLens l + v.length := by
  induction l with
  | nil => simp [aset, sumLens]
  | cons p t ih =>
      obtain ⟨k₀, v₀⟩ := p
      by_cases h0 : k₀ = k
      · simp [alookup, h0] at h
      · simp [alookup, h0] at h
        have := ih h
        simp [aset, sumLens, h0] at this ⊢
        omega

theorem sumLens_adel_some (l : List (String × List Voice)) (k : String)
    (w : List Voice) (h : alookup l k = some w) :
    sumLens (adel l k) + w.length = sumLens l := by
  induction l with
  | nil => simp [alookup] at h
  | cons p t ih =>
      obtain ⟨k₀, v₀⟩ := p
      by_cases h0 : k₀ = k
      · simp [alookup, h0] at h
        subst h
        simp [adel, sumLens, h0]
        omega
      · simp [alookup, h0] at h
        have := ih h
        simp [adel, sumLens, h0] at this ⊢
        omega

/-! ## `pickQuietest` characterization -/

theorem quietFold_spec (l : List Voice) :
    ∀ (w v : Voice) (m : Rat),
      l.foldl OneShotAudio.quietStep (some (w, OneShotAudio.score w)) = some (v, m) →
      m = OneShotAudio.score v ∧ (v = w ∨ v ∈ l) ∧
        OneShotAudio.score v ≤ OneShotAudio.score w ∧
        ∀ u ∈ l, OneShotAudio.score v ≤ OneShotAudio.score u := by
  induction l with
  | nil =>
      intro w v m h
      simp at h
      obtain ⟨h1, h2⟩ := h
      subst h1
      subst h2
      exact ⟨rfl, Or.inl rfl, le_refl _, by simp⟩
  | cons a t ih =>
      intro w v m h
      rw [List.foldl_cons] at h
      by_cases ha : OneShotAudio.score a < OneShotAudio.score w
      · rw [show OneShotAudio.quietStep (some (w, OneShotAudio.score w)) a =
            some (a, OneShotAudio.score a) by simp [OneShotAudio.quietStep, ha]] at h
        obtain ⟨h1, h2, h3, h4⟩ := ih a v m h
        refine ⟨h1, ?_, le_trans h3 (le_of_lt ha), ?_⟩
        · rcases h2 with h2 | h2
          · exact Or.inr (h2 ▸ List.mem_cons_self _ _)
          · exact Or.inr (List.mem_cons_of_mem _ h2)
        · intro u hu
          rcases List.mem_cons.mp hu with hu | hu
          · exact hu ▸ h3
          · exact h4 u hu
      · rw [show OneShotAudio.quietStep (some (w, OneShotAudio.score w)) a =
            some (w, OneShotAudio.score w) by simp [OneShotAudio.quietStep, ha]] at h
        obtain ⟨h1, h2, h3, h4⟩ := ih w v m h
        refine ⟨h1, ?_, h3, ?_⟩
        · rcases h2 with h2 | h2
          · exact Or.inl h2
          · exact Or.inr (List.mem_cons_of_mem _ h2)
        · intro u hu
          rcases List.mem_cons.mp hu with hu | hu
          · exact hu ▸ le_trans h3 (not_lt.mp ha)
          · exact h4 u hu

theorem quietFold_isSome (l : List Voice) :
    ∀ (x : Voice × Rat), (l.foldl OneShotAudio.quietStep (some x)).isSome := by
  induction l with
  | nil => intro x; simp
  | cons a t ih =>
      intro x
      obtain ⟨w, m⟩ := x
      rw [List.foldl_cons]
      by_cases ha : OneShotAudio.score a < m
      · rw [show OneShotAudio.quietStep (some (w, m)) a =
            some (a, OneShotAudio.score a) by simp [OneShotAudio.quietStep, ha]]
        exact ih _
      · rw [show OneShotAudio.quietStep (some (w, m)) a =
            some (w, m) by simp [OneShotAudio.quietStep, ha]]
        exact ih _

/-- The voice returned by the `stealQuietest` scan is an active voice of
minimum score. -/
theorem pickQuietest_spec (l : List Voice) (v : Voice)
    (h : OneShotAudio.pickQuietest l = some v) :
    v ∈ l ∧ ∀ u ∈ l, OneShotAudio.score v ≤ OneShotAudio.score u := by
  match l with
  | [] => simp [OneShotAudio.pickQuietest] at h
  | a :: t =>
      rw [OneShotAudio.pickQuietest, List.foldl_cons,
        show OneShotAudio.quietStep none a = some (a, OneShotAudio.score a) from rfl] at h
      obtain ⟨⟨v', m⟩, hfold, hv⟩ := Option.map_eq_some'.mp h
      simp only at hv
      subst hv
      obtain ⟨h1, h2, h3, h4⟩ := quietFold_spec t a v' m hfold
      refine ⟨?_, ?_⟩
      · rcases h2 with h2 | h2
        · exact h2 ▸ List.mem_cons_self _ _
        · exact List.mem_cons_of_mem _ h2
      · intro u hu
        rcases List.mem_cons.mp hu with hu | hu
        · exact hu ▸ h3
        · exact h4 u hu

/-- On a non-empty list the `stealQuietest` scan returns a voice. -/
theorem pickQuietest_isSome (l : List Voice) (h : l ≠ []) :
    (OneShotAudio.pickQuietest l).isSome := by
  match l with
  | [] => exact absurd rfl h
  | a :: t =>
      rw [OneShotAudio.pickQuietest, List.foldl_cons,
        show OneShotAudio.quietStep none a = some (a, OneShotAudio.score a) from rfl]
      have h2 := quietFold_isSome t (a, OneShotAudio.score a)
      cases hres : List.foldl OneShotAudio.quietStep (some (a, OneShotAudio.score a)) t with
      | none => rw [hres] at h2; simp at h2
      | some x => simp [hres]

theorem alookup_mem {α : Type} (l : List (String × α)) (k : String) (v : α)
    (h : alookup l k = some v) : (k, v) ∈ l := by
  induction l with
  | nil => simp [alookup] at h
  | cons p t ih =>
      obtain ⟨k₀, v₀⟩ := p
      by_cases h0 : k₀ = k
      · simp [alookup, h0] at h
        subst h0
        subst h
        exact List.mem_cons_self _ _
      · simp only [alookup, if_neg h0] at h
        exact List.mem_cons_of_mem _ (ih h)

theorem adel_mem_ne {α : Type} (l : List (String × α)) (k : String)
    (hk : (akeys l).Nodup) (p : String × α) (hp : p ∈ adel l k) :
    p ∈ l ∧ p.1 ≠ k := by
  induction l with
  | nil => simp [adel] at hp
  | cons q t ih =>
      obtain ⟨k₀, v₀⟩ := q
      rw [akeys, List.map_cons, List.nodup_cons] at hk
      by_cases h0 : k₀ = k
      · subst h0
        simp only [adel, if_pos rfl] at hp
        refine ⟨List.mem_cons_of_mem _ hp, fun hh => hk.1 ?_⟩
        rw [← hh]
        exact List.mem_map.mpr ⟨p, hp, rfl⟩
      · simp only [adel, if_neg h0] at hp
        rcases List.mem_cons.mp hp with hp | hp
        · subst hp
          exact ⟨List.mem_cons_self _ _, h0⟩
        · obtain ⟨h1, h2⟩ := ih hk.2 hp
          exact ⟨List.mem_cons_of_mem _ h1, h2⟩

/-! ## The registry invariant -/

theorem idSorted.nodup {l : List Voice} (h : idSorted l) : l.Nodup :=
  h.imp (fun hab => by
    intro he
    rw [he] at hab
    exact absurd hab (lt_irrefl _))

theorem init_inv (cfg : InitConfig) : RegistryInv (OneShotAudio.init cfg) := by
  constructor <;> simp [OneShotAudio.init, idSorted, akeys, sumLens]

theorem not_mem_akeys_alookup {α : Type} (l : List (String × α)) (k : String)
    (h : k ∉ akeys l) : alookup l k = none := by
  induction l with
  | nil => simp [alookup]
  | cons p t ih =>
      obtain ⟨k₀, v₀⟩ := p
      rw [akeys, List.map_cons, List.mem_cons] at h
      push_neg at h
      by_cases h0 : k₀ = k
      · exact absurd h0.symm h.1
      · simp only [alookup, if_neg h0]
        exact ih h.2

theorem alookup_adel_self {α : Type} (l : List (String × α)) (k : String)
    (hk : (akeys l).Nodup) : alookup (adel l k) k = none := by
  induction l with
  | nil => simp [adel, alookup]
  | cons p t ih =>
      obtain ⟨k₀, v₀⟩ := p
      rw [akeys, List.map_cons, List.nodup_cons] at hk
      by_cases h0 : k₀ = k
      · simp only [adel, if_pos h0]
        apply not_mem_akeys_alookup
        rw [← h0]
        exact hk.1
      · simp only [adel, if_neg h0, alookup, if_neg h0]
        exact ih hk.2

/-- Eviction only rewrites the registry sets: every other state component is
untouched. -/
theorem evict_state (s : OneShotState) (victim : Voice) :
    (OneShotAudio.evict s victim).active = s.active.erase victim ∧
    (OneShotAudio.evict s victim).maxGlobalVoices = s.maxGlobalVoices ∧
    (OneShotAudio.evict s victim).defaultPolicy = s.defaultPolicy ∧
    (OneShotAudio.evict s victim).trackPolicies = s.trackPolicies ∧
    (OneShotAudio.evict s victim).buffers = s.buffers ∧
    (OneShotAudio.evict s victim).lastStartAt = s.lastStartAt ∧
    (OneShotAudio.evict s victim).nextId = s.nextId :=
  ⟨rfl, rfl, rfl, rfl, rfl, rfl, rfl⟩

/-- Evicting a registered victim preserves the registry invariant, shrinks
the global set by exactly one, and leaves the victim in neither registry. -/
theorem evict_inv (s : OneShotState) (victim : Voice) (hs : RegistryInv s)
    (hv : victim ∈ s.active) :
    RegistryInv (OneShotAudio.evict s victim) ∧
    (OneShotAudio.evict s victim).active.length + 1 = s.active.length ∧
    victim ∉ (OneShotAudio.evict s victim).active ∧
    (∀ l', alookup (OneShotAudio.evict s victim).activeByTrack victim.name = some l' →
      victim ∉ l') := by
  obtain ⟨l, hl, hvl⟩ := hs.member victim hv
  have hentry : (victim.name, l) ∈ s.activeByTrack := alookup_mem _ _ _ hl
  have hlsorted : idSorted l := hs.tracksSorted _ hentry
  have hlnodup : l.Nodup := hlsorted.nodup
  have handup : s.active.Nodup := hs.activeSorted.nodup
  have hvnel : victim ∉ l.erase victim := by
    intro hmem
    exact (hlnodup.mem_erase_iff.mp hmem).1 rfl
  have hvnea : victim ∉ s.active.erase victim := by
    intro hmem
    exact (handup.mem_erase_iff.mp hmem).1 rfl
  have hlenl : (l.erase victim).length = l.length - 1 := List.length_erase_of_mem hvl
  have hlpos : 0 < l.length := List.length_pos.mpr (List.ne_nil_of_mem hvl)
  have hlena : (s.active.erase victim).length = s.active.length - 1 :=
    List.length_erase_of_mem hv
  have hapos : 0 < s.active.length := List.length_pos.mpr (List.ne_nil_of_mem hv)
  have hsorted' : idSorted (s.active.erase victim) :=
    List.Pairwise.sublist (List.erase_sublist _ _) hs.activeSorted
  have hev : OneShotAudio.evict s victim =
      { s with
        active := s.active.erase victim,
        activeByTrack :=
          (if (l.erase victim).length = 0 then adel s.activeByTrack victim.name
           else aset s.activeByTrack victim.name (l.erase victim)) } := by
    rw [OneShotAudio.evict, hl]
  rw [hev]
  by_cases hz : (l.erase victim).length = 0
  · -- the track set becomes empty: its entry is removed
    have hl1 : l.length = 1 := by omega
    have hsingle : ∀ v ∈ l, v = victim := by
      intro v hvmem
      by_contra hne
      have : v ∈ l.erase victim := (List.mem_erase_of_ne hne).mpr hvmem
      rw [List.length_eq_zero.mp hz] at this
      simp at this
    simp only [if_pos hz]
    refine ⟨?_, by simpa using by omega, by simpa using hvnea, ?_⟩
    · constructor
      · exact hsorted'
      · exact List.Nodup.sublist (List.Sublist.map Prod.fst (adel_sublist _ _)) hs.keysNodup
      · intro p hp
        exact hs.tracksNe p ((adel_sublist _ _).subset hp)
      · intro p hp
        exact hs.tracksName p ((adel_sublist _ _).subset hp)
      · intro p hp v hvp
        obtain ⟨hpold, hpne⟩ := adel_mem_ne _ _ hs.keysNodup p hp
        have hvact := hs.tracksMem p hpold v hvp
        have hvname := hs.tracksName p hpold v hvp
        have hne : v ≠ victim := by
          intro he
          apply hpne
          rw [← hvname, he]
        exact (handup.mem_erase_iff).mpr ⟨hne, hvact⟩
      · intro p hp
        exact hs.tracksSorted p ((adel_sublist _ _).subset hp)
      · intro v hvmem
        obtain ⟨hne, hvact⟩ := handup.mem_erase_iff.mp hvmem
        obtain ⟨lv, hlv, hvlv⟩ := hs.member v hvact
        have hnname : v.name ≠ victim.name := by
          intro he
          rw [he, hl] at hlv
          have : lv = l := (Option.some.inj hlv).symm
          subst this
          exact hne (hsingle v hvlv)
        refine ⟨lv, ?_, hvlv⟩
        rw [alookup_adel_ne _ _ _ hnname]
        exact hlv
      · intro v hvmem
        exact hs.fresh v ((List.erase_sublist _ _).subset hvmem)
      · have hsum := sumLens_adel_some s.activeByTrack victim.name l hl
        have hc := hs.counts
        simp only
        omega
    · intro l' hl'
      rw [alookup_adel_self _ _ hs.keysNodup] at hl'
      exact absurd hl' (by simp)
  · -- the track set stays non-empty: its entry is rewritten in place
    simp only [if_neg hz]
    refine ⟨?_, by simpa using by omega, by simpa using hvnea, ?_⟩
    · constructor
      · exact hsorted'
      · rw [akeys_aset_of_mem _ _ _ l hl]
        exact hs.keysNodup
      · intro p hp
        rcases aset_mem _ _ _ hs.keysNodup p hp with hp1 | ⟨hpold, _⟩
        · rw [hp1]
          intro he
          simp only at he
          rw [he] at hz
          simp at hz
        · exact hs.tracksNe p hpold
      · intro p hp v hvp
        rcases aset_mem _ _ _ hs.keysNodup p hp with hp1 | ⟨hpold, _⟩
        · subst hp1
          simp only at hvp ⊢
          exact hs.tracksName _ hentry v ((List.erase_sublist _ _).subset hvp)
        · exact hs.tracksName p hpold v hvp
      · intro p hp v hvp
        rcases aset_mem _ _ _ hs.keysNodup p hp with hp1 | ⟨hpold, hpne⟩
        · subst hp1
          simp only at hvp
          obtain ⟨hne, hvin⟩ := hlnodup.mem_erase_iff.mp hvp
          exact (handup.mem_erase_iff).mpr ⟨hne, hs.tracksMem _ hentry v hvin⟩
        · have hvact := hs.tracksMem p hpold v hvp
          have hvname := hs.tracksName p hpold v hvp
          have hne : v ≠ victim := by
            intro he
            apply hpne
            rw [← hvname, he]
          exact (handup.mem_erase_iff).mpr ⟨hne, hvact⟩
      · intro p hp
        rcases aset_mem _ _ _ hs.keysNodup p hp with hp1 | ⟨hpold, _⟩
        · subst hp1
          exact List.Pairwise.sublist (List.erase_sublist _ _) hlsorted
        · exact hs.tracksSorted p hpold
      · intro v hvmem
        obtain ⟨hne, hvact⟩ := handup.mem_erase_iff.mp hvmem
        obtain ⟨lv, hlv, hvlv⟩ := hs.member v hvact
        by_cases hnn : v.name = victim.name
        · rw [hnn, hl] at hlv
          have hle : lv = l := (Option.some.inj hlv).symm
          refine ⟨l.erase victim, ?_, (List.mem_erase_of_ne hne).mpr (hle ▸ hvlv)⟩
          rw [hnn]
          exact alookup_aset_self _ _ _
        · refine ⟨lv, ?_, hvlv⟩
          rw [alookup_aset_ne _ _ _ _ hnn]
          exact hlv
      · intro v hvmem
        exact hs.fresh v ((List.erase_sublist _ _).subset hvmem)
      · have hsum := sumLens_aset_some s.activeByTrack victim.name (l.erase victim) l hl
        have hc := hs.counts
        simp only
        omega
    · intro l' hl'
      rw [alookup_aset_self] at hl'
      have : l' = l.erase victim := (Option.some.inj hl').symm
      rw [this]
      exact hvnel

/-- Any victim picked against the registry's own track set is a globally
active voice. -/
theorem pickVictim_mem (s : OneShotState) (name : String) (strategy : StealStrategy)
    (hs : RegistryInv s) (v : Voice)
    (h : OneShotAudio.pickVictim s.active ((alookup s.activeByTrack name).getD [])
      strategy = some v) :
    v ∈ s.active := by
  cases strategy with
  | ignore => simp [OneShotAudio.pickVictim] at h
  | stealQuietest =>
      simp only [OneShotAudio.pickVictim] at h
      exact (pickQuietest_spec _ _ h).1
  | stealOldest =>
      simp only [OneShotAudio.pickVictim] at h
      cases hlk : alookup s.activeByTrack name with
      | none =>
          rw [hlk] at h
          simp only [Option.getD_none, List.head?_nil] at h
          exact List.mem_of_mem_head? (Option.mem_def.mpr h)
      | some l =>
          rw [hlk] at h
          simp only [Option.getD_some] at h
          cases hh : l.head? with
          | none =>
              rw [hh] at h
              exact List.mem_of_mem_head? (Option.mem_def.mpr h)
          | some w =>
              rw [hh] at h
              have hvw : w = v := Option.some.inj h
              subst hvw
              exact hs.tracksMem _ (alookup_mem _ _ _ hlk) w
                (List.mem_of_mem_head? (Option.mem_def.mpr hh))

/-- Complete case analysis of `_ensureCapacity`: immediate success below
both limits with no side effect, failure with no side effect, or an
eviction: the victim picked by the strategy, at priority at most the new
voice's, removed from the registry, with the fade and stop effect. -/
theorem ensureCapacity_cases (s : OneShotState) (policy : Policy)
    (trackSet : List Voice) (newPriority now : Rat) :
    (OneShotAudio.ensureCapacity s policy trackSet newPriority now = (true, s, none) ∧
      s.active.length < s.maxGlobalVoices ∧ trackSet.length < policy.maxVoices) ∨
    (OneShotAudio.ensureCapacity s policy trackSet newPriority now = (false, s, none) ∧
      (s.maxGlobalVoices ≤ s.active.length ∨ policy.maxVoices ≤ trackSet.length)) ∨
    (∃ victim,
      OneShotAudio.pickVictim s.active trackSet policy.stealStrategy = some victim ∧
      (s.maxGlobalVoices ≤ s.active.length ∨ policy.maxVoices ≤ trackSet.length) ∧
      policy.stealStrategy ≠ .ignore ∧
      victim.priority ≤ newPriority ∧
      OneShotAudio.ensureCapacity s policy trackSet newPriority now =
        (true, OneShotAudio.evict s victim, some
          { victim := victim
          , rampStart := now
          , rampTargetValue := 0
          , rampEndTime := now + max 0 policy.stealFadeMs / 1000
          , stopTime := now + (if 0 < now + max 0 policy.stealFadeMs / 1000 - now
              then now + max 0 policy.stealFadeMs / 1000 - now else 0) })) := by
  by_cases hfull : ¬s.maxGlobalVoices ≤ s.active.length ∧ ¬policy.maxVoices ≤ trackSet.length
  · left
    refine ⟨?_, not_le.mp hfull.1, not_le.mp hfull.2⟩
    rw [OneShotAudio.ensureCapacity]
    simp only [if_pos hfull]
  · right
    have hfull' : s.maxGlobalVoices ≤ s.active.length ∨ policy.maxVoices ≤ trackSet.length := by
      by_contra hc
      push_neg at hc
      exact hfull ⟨not_le.mpr hc.1, not_le.mpr hc.2⟩
    by_cases hig : policy.stealStrategy = .ignore
    · left
      refine ⟨?_, hfull'⟩
      rw [OneShotAudio.ensureCapacity]
      simp only [if_neg hfull, if_pos hig]
    · cases hpick : OneShotAudio.pickVictim s.active trackSet policy.stealStrategy with
      | none =>
          left
          refine ⟨?_, hfull'⟩
          rw [OneShotAudio.ensureCapacity]
          simp only [if_neg hfull, if_neg hig, hpick]
      | some victim =>
          by_cases hpr : newPriority < victim.priority
          · left
            refine ⟨?_, hfull'⟩
            rw [OneShotAudio.ensureCapacity]
            simp only [if_neg hfull, if_neg hig, hpick, if_pos hpr]
          · right
            refine ⟨victim, rfl, hfull', hig, not_lt.mp hpr, ?_⟩
            rw [OneShotAudio.ensureCapacity]
            simp only [if_neg hfull, if_neg hig, hpick, if_neg hpr]

/-- Registering a fresh voice (identity above everything active) preserves
the registry invariant; both global count and the voice's track count grow
by one. -/
theorem register_inv (s1 : OneShotState) (hs : RegistryInv s1)
    (name : String) (pr vol : Rat) (n : Nat) (now : Rat)
    (hn : ∀ w ∈ s1.active, w.id < n) :
    RegistryInv { s1 with
      lastStartAt := aset s1.lastStartAt name now
    , active := s1.active ++ [⟨n, name, pr, vol⟩]
    , activeByTrack := aset s1.activeByTrack name
        (((alookup s1.activeByTrack name).getD []) ++ [⟨n, name, pr, vol⟩])
    , nextId := n + 1 } := by
  set voice : Voice := ⟨n, name, pr, vol⟩ with hvoice
  have hTsub : ∀ v ∈ (alookup s1.activeByTrack name).getD [], v ∈ s1.active := by
    cases hlk : alookup s1.activeByTrack name with
    | none => simp
    | some l =>
        simp only [Option.getD_some]
        exact hs.tracksMem _ (alookup_mem _ _ _ hlk)
  have hTname : ∀ v ∈ (alookup s1.activeByTrack name).getD [], v.name = name := by
    cases hlk : alookup s1.activeByTrack name with
    | none => simp
    | some l =>
        simp only [Option.getD_some]
        exact hs.tracksName _ (alookup_mem _ _ _ hlk)
  have hTsorted : idSorted ((alookup s1.activeByTrack name).getD []) := by
    cases hlk : alookup s1.activeByTrack name with
    | none => simp [idSorted]
    | some l =>
        simp only [Option.getD_some]
        exact hs.tracksSorted _ (alookup_mem _ _ _ hlk)
  constructor
  · show idSorted (s1.active ++ [voice])
    rw [idSorted, List.pairwise_append]
    refine ⟨hs.activeSorted, by simp [idSorted], ?_⟩
    intro a ha b hb
    rw [List.mem_singleton.mp hb]
    exact hn a ha
  · cases hlk : alookup s1.activeByTrack name with
    | none =>
        simp only
        rw [akeys_aset_of_none _ _ _ hlk]
        rw [List.nodup_append]
        refine ⟨hs.keysNodup, List.nodup_singleton _, ?_⟩
        intro a ha hb
        rw [List.mem_singleton.mp hb] at ha
        exact alookup_none_not_mem_akeys _ _ hlk ha
    | some l =>
        simp only
        rw [akeys_aset_of_mem _ _ _ l hlk]
        exact hs.keysNodup
  · intro p hp
    rcases aset_mem _ _ _ hs.keysNodup p hp with hp1 | ⟨hpold, _⟩
    · rw [hp1]
      simp
    · exact hs.tracksNe p hpold
  · intro p hp v hvp
    rcases aset_mem _ _ _ hs.keysNodup p hp with hp1 | ⟨hpold, _⟩
    · subst hp1
      simp only at hvp ⊢
      rcases List.mem_append.mp hvp with hvp | hvp
      · exact hTname v hvp
      · rw [List.mem_singleton.mp hvp]
    · exact hs.tracksName p hpold v hvp
  · intro p hp v hvp
    rcases aset_mem _ _ _ hs.keysNodup p hp with hp1 | ⟨hpold, _⟩
    · subst hp1
      simp only at hvp ⊢
      rcases List.mem_append.mp hvp with hvp | hvp
      · exact List.mem_append.mpr (Or.inl (hTsub v hvp))
      · exact List.mem_append.mpr (Or.inr hvp)
    · exact List.mem_append.mpr (Or.inl (hs.tracksMem p hpold v hvp))
  · intro p hp
    rcases aset_mem _ _ _ hs.keysNodup p hp with hp1 | ⟨hpold, _⟩
    · subst hp1
      simp only
      rw [idSorted, List.pairwise_append]
      refine ⟨hTsorted, by simp [idSorted], ?_⟩
      intro a ha b hb
      rw [List.mem_singleton.mp hb]
      exact hn a (hTsub a ha)
    · exact hs.tracksSorted p hpold
  · intro v hvmem
    rcases List.mem_append.mp hvmem with hvmem | hvmem
    · obtain ⟨lv, hlv, hvlv⟩ := hs.member v hvmem
      by_cases hnn : v.name = name
      · refine ⟨((alookup s1.activeByTrack name).getD []) ++ [voice], ?_, ?_⟩
        · rw [hnn]
          exact alookup_aset_self _ _ _
        · refine List.mem_append.mpr (Or.inl ?_)
          rw [hnn] at hlv
          rw [hlv]
          exact hvlv
      · refine ⟨lv, ?_, hvlv⟩
        rw [alookup_aset_ne _ _ _ _ hnn]
        exact hlv
    · rw [List.mem_singleton.mp hvmem]
      refine ⟨((alookup s1.activeByTrack name).getD []) ++ [voice],
        alookup_aset_self _ _ _, List.mem_append.mpr (Or.inr (List.mem_singleton.mpr rfl))⟩
  · intro v hvmem
    rcases List.mem_append.mp hvmem with hvmem | hvmem
    · exact lt_trans (hn v hvmem) (Nat.lt_succ_self n)
    · rw [List.mem_singleton.mp hvmem]
      exact Nat.lt_succ_self n
  · show (s1.active ++ [voice]).length =
      sumLens (aset s1.activeByTrack name
        (((alookup s1.activeByTrack name).getD []) ++ [voice]))
    cases hlk : alookup s1.activeByTrack name with
    | none =>
        simp only [Option.getD_none, List.nil_append, List.length_append,
          List.length_singleton]
        have h2 := sumLens_aset_none s1.activeByTrack name [voice] hlk
        simp only [List.length_singleton] at h2
        have hc := hs.counts
        omega
    | some l =>
        simp only [Option.getD_some, List.length_append, List.length_singleton]
        have h2 := sumLens_aset_some s1.activeByTrack name
          (l ++ [voice]) l hlk
        simp only [List.length_append, List.length_singleton] at h2
        have hc := hs.counts
        omega

/-- Complete case analysis of `play`: every rejection (missing buffer, rate
limit, failed capacity check) returns `null` with the state untouched and no
steal effect; an admission registers the new voice (fresh identity, the
call's resolved priority and volume) over the state left by the capacity
check, threading out its steal effect. -/
theorem play_spec (s : OneShotState) (name : String) (opts : PlayOptions) (now : Rat) :
    (OneShotAudio.play s name opts now = (none, s, none) ∧
      (name ∉ s.buffers ∨ OneShotAudio.rateLimited s name opts now = true ∨
        OneShotAudio.ensureCapacity s (OneShotAudio.getPolicy s name)
          ((alookup s.activeByTrack name).getD [])
          (opts.priority.getD (OneShotAudio.getPolicy s name).priority) now =
          (false, s, none))) ∨
    (∃ s1 eff,
      name ∈ s.buffers ∧ OneShotAudio.rateLimited s name opts now = false ∧
      OneShotAudio.ensureCapacity s (OneShotAudio.getPolicy s name)
        ((alookup s.activeByTrack name).getD [])
        (opts.priority.getD (OneShotAudio.getPolicy s name).priority) now =
        (true, s1, eff) ∧
      OneShotAudio.play s name opts now =
        (some { id := s.nextId, name := name
              , priority := opts.priority.getD (OneShotAudio.getPolicy s name).priority
              , volume := opts.volume.getD 1 },
         OneShotAudio.registerVoice s1 name
           { id := s.nextId, name := name
           , priority := opts.priority.getD (OneShotAudio.getPolicy s name).priority
           , volume := opts.volume.getD 1 } now,
         eff)) := by
  by_cases hb : name ∈ s.buffers
  · by_cases hr : OneShotAudio.rateLimited s name opts now = true
    · left
      refine ⟨?_, Or.inr (Or.inl hr)⟩
      rw [OneShotAudio.play]
      simp [hb, hr]
    · rcases ensureCapacity_cases s (OneShotAudio.getPolicy s name)
        ((alookup s.activeByTrack name).getD [])
        (opts.priority.getD (OneShotAudio.getPolicy s name).priority) now with
        ⟨heq, _, _⟩ | ⟨heq, _⟩ | ⟨victim, hpick, hfull, hig, hpr, heq⟩
      · right
        refine ⟨s, none, hb, Bool.not_eq_true _ ▸ hr, heq, ?_⟩
        rw [OneShotAudio.play]
        simp only [if_pos hb, if_neg hr, heq]
      · left
        refine ⟨?_, Or.inr (Or.inr heq)⟩
        rw [OneShotAudio.play]
        simp only [if_pos hb, if_neg hr, heq]
      · right
        refine ⟨OneShotAudio.evict s victim, _, hb, Bool.not_eq_true _ ▸ hr, heq, ?_⟩
        rw [OneShotAudio.play]
        simp only [if_pos hb, if_neg hr, heq]
  · left
    refine ⟨?_, Or.inl hb⟩
    rw [OneShotAudio.play]
    simp [hb]

/-- `play` preserves the registry invariant. -/
theorem play_inv (s : OneShotState) (name : String) (opts : PlayOptions)
    (now : Rat) (hs : RegistryInv s) :
    RegistryInv (OneShotAudio.play s name opts now).2.1 := by
  rcases play_spec s name opts now with ⟨heq, _⟩ | ⟨s1, eff, hb, hr, hcap, heq⟩
  · rw [heq]
    exact hs
  · rcases ensureCapacity_cases s (OneShotAudio.getPolicy s name)
      ((alookup s.activeByTrack name).getD [])
      (opts.priority.getD (OneShotAudio.getPolicy s name).priority) now with
      ⟨h2, _, _⟩ | ⟨h2, _⟩ | ⟨victim, hpick, hfull, hig, hpr, h2⟩
    · rw [hcap] at h2
      have hs1 : s1 = s := by
        have := congrArg (fun r => r.2.1) h2
        simpa using this
      rw [heq, hs1]
      exact register_inv s hs name _ _ s.nextId now hs.fresh
    · rw [hcap] at h2
      exact absurd (congrArg Prod.fst h2) (by simp)
    · rw [hcap] at h2
      have hs1 : s1 = OneShotAudio.evict s victim := by
        have := congrArg (fun r => r.2.1) h2
        simpa using this
      have hvmem : victim ∈ s.active := pickVictim_mem s name _ hs victim hpick
      obtain ⟨hinv1, _, _, _⟩ := evict_inv s victim hs hvmem
      have hfr : ∀ w ∈ (OneShotAudio.evict s victim).active, w.id < s.nextId := by
        intro w hw
        rw [(evict_state s victim).1] at hw
        exact hs.fresh w ((List.erase_sublist _ _).subset hw)
      rw [heq, hs1]
      exact register_inv (OneShotAudio.evict s victim) hinv1 name _ _ s.nextId now hfr

/-- Under the registry invariant, the natural-end callback acting on a
registered voice coincides with the eviction update. -/
theorem handleEnd_eq_evict (s : OneShotState) (voice : Voice)
    (hs : RegistryInv s) (hv : voice ∈ s.active) :
    OneShotAudio.handleEnd s voice = OneShotAudio.evict s voice := by
  obtain ⟨l, hl, hvl⟩ := hs.member voice hv
  rw [OneShotAudio.handleEnd, OneShotAudio.evict, hl]
  simp only [Option.getD_some]
  by_cases hz : (l.erase voice).length = 0
  · simp only [if_pos hz, adel_aset]
  · simp only [if_neg hz]

/-- Every reachable state satisfies the registry invariant. -/
theorem reachable_inv (s : OneShotState) (h : Reachable s) : RegistryInv s := by
  induction h with
  | init cfg => exact init_inv cfg
  | play s name opts now _ ih => exact play_inv s name opts now ih
  | ended s voice _ hv ih =>
      rw [handleEnd_eq_evict s voice ih hv]
      exact (evict_inv s voice ih hv).1

/-- The capacity check never touches the configuration, the clock map or
the identity counter. -/
theorem ensureCapacity_fields (s : OneShotState) (policy : Policy)
    (ts : List Voice) (pr now : Rat) :
    (OneShotAudio.ensureCapacity s policy ts pr now).2.1.buffers = s.buffers ∧
    (OneShotAudio.ensureCapacity s policy ts pr now).2.1.trackPolicies = s.trackPolicies ∧
    (OneShotAudio.ensureCapacity s policy ts pr now).2.1.defaultPolicy = s.defaultPolicy ∧
    (OneShotAudio.ensureCapacity s policy ts pr now).2.1.maxGlobalVoices = s.maxGlobalVoices ∧
    (OneShotAudio.ensureCapacity s policy ts pr now).2.1.nextId = s.nextId ∧
    (OneShotAudio.ensureCapacity s policy ts pr now).2.1.lastStartAt = s.lastStartAt := by
  rcases ensureCapacity_cases s policy ts pr now with
    ⟨heq, _, _⟩ | ⟨heq, _⟩ | ⟨victim, _, _, _, _, heq⟩ <;>
    rw [heq] <;> exact ⟨rfl, rfl, rfl, rfl, rfl, rfl⟩

/-- `play` never changes the configuration. -/
theorem play_fields (s : OneShotState) (name : String) (opts : PlayOptions)
    (now : Rat) :
    (OneShotAudio.play s name opts now).2.1.buffers = s.buffers ∧
    (OneShotAudio.play s name opts now).2.1.trackPolicies = s.trackPolicies ∧
    (OneShotAudio.play s name opts now).2.1.defaultPolicy = s.defaultPolicy ∧
    (OneShotAudio.play s name opts now).2.1.maxGlobalVoices = s.maxGlobalVoices := by
  rcases play_spec s name opts now with ⟨heq, _⟩ | ⟨s1, eff, hb, hr, hcap, heq⟩
  · rw [heq]
    exact ⟨rfl, rfl, rfl, rfl⟩
  · have hf := ensureCapacity_fields s (OneShotAudio.getPolicy s name)
      ((alookup s.activeByTrack name).getD [])
      (opts.priority.getD (OneShotAudio.getPolicy s name).priority) now
    rw [hcap] at hf
    rw [heq]
    exact ⟨hf.1, hf.2.1, hf.2.2.1, hf.2.2.2.1⟩

/-- Policy resolution only reads the configuration. -/
theorem getPolicy_congr (s s' : OneShotState) (name : String)
    (h1 : s'.trackPolicies = s.trackPolicies)
    (h2 : s'.defaultPolicy = s.defaultPolicy) :
    OneShotAudio.getPolicy s' name = OneShotAudio.getPolicy s name := by
  rw [OneShotAudio.getPolicy, OneShotAudio.getPolicy, h1, h2]

/-- Registration grows the voice's own track count by exactly one. -/
theorem registerVoice_count (s1 : OneShotState) (name : String) (voice : Voice)
    (now : Rat) :
    OneShotAudio.getActiveCount (OneShotAudio.registerVoice s1 name voice now)
        (some name) =
      OneShotAudio.getActiveCount s1 (some name) + 1 := by
  show ((alookup (aset s1.activeByTrack name
      (((alookup s1.activeByTrack name).getD []) ++ [voice])) name).getD []).length = _
  rw [alookup_aset_self]
  simp [OneShotAudio.getActiveCount]

/-- An admitted `play` on a track resolved to the `'ignore'` strategy never
steals, so it grows the track count by exactly one. -/
theorem play_ignore_success_count (s : OneShotState) (name : String)
    (opts : PlayOptions) (now : Rat) (v : Voice) (s' : OneShotState)
    (eff : Option StealEffect)
    (hig : (OneShotAudio.getPolicy s name).stealStrategy = .ignore)
    (h : OneShotAudio.play s name opts now = (some v, s', eff)) :
    OneShotAudio.getActiveCount s' (some name) =
      OneShotAudio.getActiveCount s (some name) + 1 := by
  rcases play_spec s name opts now with ⟨heq, _⟩ | ⟨s1, eff1, hb, hr, hcap, heq⟩
  · rw [heq] at h
    exact absurd (congrArg Prod.fst h) (by simp)
  · rw [heq] at h
    have hs' : s' = OneShotAudio.registerVoice s1 name
        { id := s.nextId, name := name
        , priority := opts.priority.getD (OneShotAudio.getPolicy s name).priority
        , volume := opts.volume.getD 1 } now :=
      (congrArg (fun r => r.2.1) h).symm
    rcases ensureCapacity_cases s (OneShotAudio.getPolicy s name)
      ((alookup s.activeByTrack name).getD [])
      (opts.priority.getD (OneShotAudio.getPolicy s name).priority) now with
      ⟨h2, _, _⟩ | ⟨h2, _⟩ | ⟨victim, _, _, hig2, _, h2⟩
    · rw [hcap] at h2
      have hs1 : s1 = s := by
        have := congrArg (fun r => r.2.1) h2
        simpa using this
      rw [hs', hs1, registerVoice_count]
    · rw [hcap] at h2
      exact absurd (congrArg Prod.fst h2) (by simp)
    · exact absurd hig hig2

/-- Along a run of admitted plays on an `'ignore'` track, the track count
grows by the number of calls and the configuration is unchanged. -/
theorem playsOk_ignore_count (name : String) (s : OneShotState)
    (calls : List (PlayOptions × Rat)) (s' : OneShotState)
    (h : PlaysOk name s calls s') :
    (OneShotAudio.getPolicy s name).stealStrategy = .ignore →
    OneShotAudio.getActiveCount s' (some name) =
      OneShotAudio.getActiveCount s (some name) + calls.length ∧
    s'.trackPolicies = s.trackPolicies ∧
    s'.defaultPolicy = s.defaultPolicy ∧
    s'.buffers = s.buffers := by
  induction h with
  | nil s => exact fun _ => ⟨by simp, rfl, rfl, rfl⟩
  | cons s opts now v s1 eff rest s2 hplay hrest ih =>
      intro hig
      have hf := play_fields s name opts now
      rw [hplay] at hf
      have hig1 : (OneShotAudio.getPolicy s1 name).stealStrategy = .ignore := by
        rw [getPolicy_congr s s1 name hf.2.1 hf.2.2.1]
        exact hig
      obtain ⟨hc, ht, hd, hb⟩ := ih hig1
      have hcnt := play_ignore_success_count s name opts now v s1 eff hig hplay
      refine ⟨?_, ht.trans hf.2.1, hd.trans hf.2.2.1, hb.trans hf.1⟩
      rw [hc, hcnt]
      simp only [List.length_cons]
      omega

/-- In an identity-sorted list the head has the minimum identity. -/
theorem idSorted_head_min (l : List Voice) (h : idSorted l) (v : Voice)
    (hv : l.head? = some v) : ∀ w ∈ l, v.id ≤ w.id := by
  match l with
  | [] => simp at hv
  | a :: t =>
      have hva : a = v := by
        rw [List.head?_cons] at hv
        exact Option.some.inj hv
      subst hva
      intro w hw
      rcases List.mem_cons.mp hw with hw | hw
      · rw [hw]
      · exact le_of_lt (List.rel_of_pairwise_cons h hw)

/-! ## Claims -/

/-- C2: after `init` and after every registry-mutating step (admission
registration, steal eviction inside the capacity check, or a natural-end
completion callback), the global active-voice count equals the sum of the
per-track active counts: `getActiveCount()` equals the sum of
`getActiveCount(t)` over every track with at least one active voice (the
tracks with an `activeByTrack` entry). -/
theorem C2_count_partition (s : OneShotState) (h : Reachable s) :
    OneShotAudio.getActiveCount s none =
      (s.activeByTrack.map fun p => OneShotAudio.getActiveCount s (some p.1)).sum := by
  have hinv := reachable_inv s h
  have hmap : (s.activeByTrack.map fun p => OneShotAudio.getActiveCount s (some p.1)) =
      s.activeByTrack.map fun p => p.2.length := by
    apply List.map_congr_left
    intro p hp
    show ((alookup s.activeByTrack p.1).getD []).length = p.2.length
    rw [alookup_of_mem s.activeByTrack p hinv.keysNodup hp]
    rfl
  show s.active.length = _
  rw [hmap]
  exact hinv.counts

/-- Witness for C2 at the state reached by `init` then one admitted play. -/
theorem C2_count_partition_witness :
    OneShotAudio.getActiveCount
        (OneShotAudio.play (OneShotAudio.init exCfgDefault) "a" exOpts 0).2.1 none =
      ((OneShotAudio.play (OneShotAudio.init exCfgDefault) "a" exOpts 0).2.1.activeByTrack.map
        fun p => OneShotAudio.getActiveCount
          (OneShotAudio.play (OneShotAudio.init exCfgDefault) "a" exOpts 0).2.1
          (some p.1)).sum :=
  C2_count_partition _
    (Reachable.play _ "a" exOpts 0 (Reachable.init exCfgDefault))

/-- C7: whenever `play` returns `null` — unknown track, rate-limited, or
capacity exhausted and unstealable — the whole state (global set, every
per-track set, `lastStartAt`, and the node counter, so no playback node was
created or started) is exactly as before the call, and no fade effect was
issued; the rejection is a plain `none` value of a total function, never a
fault. -/
theorem C7_null_no_side_effects (s : OneShotState) (name : String)
    (opts : PlayOptions) (now : Rat)
    (h : (OneShotAudio.play s name opts now).1 = none) :
    OneShotAudio.play s name opts now = (none, s, none) := by
  rcases play_spec s name opts now with ⟨heq, _⟩ | ⟨s1, eff, _, _, _, heq⟩
  · exact heq
  · rw [heq] at h
    exact absurd h (by simp)

/-- Witness for C7 at a play of a track with no loaded buffer. -/
theorem C7_null_no_side_effects_witness :
    OneShotAudio.play (OneShotAudio.init exCfgDefault) "missing" exOpts 0 =
      (none, OneShotAudio.init exCfgDefault, none) :=
  C7_null_no_side_effects (OneShotAudio.init exCfgDefault) "missing" exOpts 0
    (by decide)

/-- C8, counterexample to the claim as stated: when the global default
policy carries `spatialDefaults` and the track's partial policy does not,
`getPolicy` resolves `spatialDefaults` to nothing (the source returns
`p.spatialDefaults ?? undefined`, never consulting the default policy),
while the claimed field-by-field track-wins-else-global-default merge
(`resolveSpec`) would return the global default's value — so resolution is
not that merge on every field. -/
theorem C8_counterexample :
    (OneShotAudio.getPolicy
      (OneShotAudio.init
        ⟨none, ⟨none, none, none, none, none,
          some ⟨none, some 1, none, none, none, none, none⟩⟩, [], ["a"]⟩)
      "a").spatialDefaults = none ∧
    (resolveSpec
      (⟨none, ⟨none, none, none, none, none,
        some ⟨none, some 1, none, none, none, none, none⟩⟩, [], ["a"]⟩ :
          InitConfig).tracks
      (⟨none, ⟨none, none, none, none, none,
        some ⟨none, some 1, none, none, none, none, none⟩⟩, [], ["a"]⟩ :
          InitConfig).defaultPolicy
      "a").spatialDefaults =
      some ⟨none, some 1, none, none, none, none, none⟩ ∧
    OneShotAudio.getPolicy
      (OneShotAudio.init
        ⟨none, ⟨none, none, none, none, none,
          some ⟨none, some 1, none, none, none, none, none⟩⟩, [], ["a"]⟩)
      "a" ≠
    resolveSpec
      (⟨none, ⟨none, none, none, none, none,
        some ⟨none, some 1, none, none, none, none, none⟩⟩, [], ["a"]⟩ :
          InitConfig).tracks
      (⟨none, ⟨none, none, none, none, none,
        some ⟨none, some 1, none, none, none, none, none⟩⟩, [], ["a"]⟩ :
          InitConfig).defaultPolicy
      "a" := by decide

/-- C8 (amended): for every track name, policy resolution over an
initialized state returns, on the five behavioral fields `maxVoices`,
`minInterval`, `priority`, `stealStrategy` and `stealFadeMs`, the
field-by-field merge in which the track's partial-policy value wins when
present, else the global default policy's value, else the hardcoded
fallback `maxVoices=8, minInterval=0.02, priority=0,
stealStrategy='ignore', stealFadeMs=120`; the `spatialDefaults` field is
taken from the track's partial policy alone (the global default policy's
`spatialDefaults` is never consulted). It is a pure function of the
configuration (a plain function of the state with no state output). -/
theorem C8_policy_resolution (cfg : InitConfig) (name : String) :
    (OneShotAudio.getPolicy (OneShotAudio.init cfg) name).maxVoices =
      (resolveSpec cfg.tracks cfg.defaultPolicy name).maxVoices ∧
    (OneShotAudio.getPolicy (OneShotAudio.init cfg) name).minInterval =
      (resolveSpec cfg.tracks cfg.defaultPolicy name).minInterval ∧
    (OneShotAudio.getPolicy (OneShotAudio.init cfg) name).priority =
      (resolveSpec cfg.tracks cfg.defaultPolicy name).priority ∧
    (OneShotAudio.getPolicy (OneShotAudio.init cfg) name).stealStrategy =
      (resolveSpec cfg.tracks cfg.defaultPolicy name).stealStrategy ∧
    (OneShotAudio.getPolicy (OneShotAudio.init cfg) name).stealFadeMs =
      (resolveSpec cfg.tracks cfg.defaultPolicy name).stealFadeMs ∧
    (OneShotAudio.getPolicy (OneShotAudio.init cfg) name).spatialDefaults =
      ((alookup cfg.tracks name).getD PartialPolicy.empty).spatialDefaults :=
  ⟨rfl, rfl, rfl, rfl, rfl, rfl⟩

/-- C10: a track's active count can strictly exceed its resolved
`maxVoices` after an admitted play: with track `"a"` full at its
`maxVoices = 1` and the minimum-score voice of the global `stealQuietest`
scan living on track `"b"`, the play evicts `"b"`'s voice, succeeds, and
registers the new voice into the already-full track `"a"`, leaving
`getActiveCount("a") = maxVoices + 1 = 2`. -/
theorem C10_track_overflow :
    (OneShotAudio.getPolicy
      (OneShotAudio.play
        (OneShotAudio.play
          (OneShotAudio.init
            ⟨some 32, ⟨none, some 0, none, none, none, none⟩,
              [("a", ⟨some 1, none, none, some .stealQuietest, none, none⟩)], ["a", "b"]⟩)
          "b" ⟨some (2/10), none, none⟩ 0).2.1
        "a" ⟨some (5/10), none, none⟩ 1).2.1 "a").maxVoices = 1 ∧
    OneShotAudio.getActiveCount
      (OneShotAudio.play
        (OneShotAudio.play
          (OneShotAudio.init
            ⟨some 32, ⟨none, some 0, none, none, none, none⟩,
              [("a", ⟨some 1, none, none, some .stealQuietest, none, none⟩)], ["a", "b"]⟩)
          "b" ⟨some (2/10), none, none⟩ 0).2.1
        "a" ⟨some (5/10), none, none⟩ 1).2.1 (some "a") = 1 ∧
    (OneShotAudio.play
      (OneShotAudio.play
        (OneShotAudio.play
          (OneShotAudio.init
            ⟨some 32, ⟨none, some 0, none, none, none, none⟩,
              [("a", ⟨some 1, none, none, some .stealQuietest, none, none⟩)], ["a", "b"]⟩)
          "b" ⟨some (2/10), none, none⟩ 0).2.1
        "a" ⟨some (5/10), none, none⟩ 1).2.1
      "a" ⟨some (6/10), none, none⟩ 2).1.isSome ∧
    ((OneShotAudio.play
      (OneShotAudio.play
        (OneShotAudio.play
          (OneShotAudio.init
            ⟨some 32, ⟨none, some 0, none, none, none, none⟩,
              [("a", ⟨some 1, none, none, some .stealQuietest, none, none⟩)], ["a", "b"]⟩)
          "b" ⟨some (2/10), none, none⟩ 0).2.1
        "a" ⟨some (5/10), none, none⟩ 1).2.1
      "a" ⟨some (6/10), none, none⟩ 2).2.2.map fun e => e.victim.name) = some "b" ∧
    OneShotAudio.getActiveCount
      (OneShotAudio.play
        (OneShotAudio.play
          (OneShotAudio.play
            (OneShotAudio.init
              ⟨some 32, ⟨none, some 0, none, none, none, none⟩,
                [("a", ⟨some 1, none, none, some .stealQuietest, none, none⟩)], ["a", "b"]⟩)
            "b" ⟨some (2/10), none, none⟩ 0).2.1
          "a" ⟨some (5/10), none, none⟩ 1).2.1
        "a" ⟨some (6/10), none, none⟩ 2).2.1 (some "a") = 2 := by decide

/-- C1, counterexample to the claim as stated: at the spec's own example —
globally active voices with priorities [2,2,1] and volumes [0.9,0.1,1.0],
with the track full and a priority-5 requester so the guard passes — the
`stealQuietest` eviction picks a priority-2 voice (the volume-0.1 one), not
the priority-1 voice, which stays registered: the negative multiplier makes
the minimum score select the highest-priority voice, so the lowest-priority
voice is not evicted first. -/
theorem C1_counterexample :
    ((OneShotAudio.ensureCapacity exQuietState exQuietState.defaultPolicy
        ((alookup exQuietState.activeByTrack "t").getD []) 5 0).2.2.map
      fun e => e.victim) = some ⟨1, "t", 2, 1/10⟩ ∧
    (⟨1, "t", 2, 1/10⟩ : Voice).priority = 2 ∧
    (⟨2, "t", 1, 1⟩ : Voice) ∈
      (OneShotAudio.ensureCapacity exQuietState exQuietState.defaultPolicy
        ((alookup exQuietState.activeByTrack "t").getD []) 5 0).2.1.active ∧
    (⟨2, "t", 1, 1⟩ : Voice).priority = 1 := by decide

/-- C1 (amended): for every capacity check that reaches victim selection
under `stealQuietest`, a score of `priority * -1000 + currentVolume` is
computed for every globally active voice and the minimum-score voice is
picked as victim — because the multiplier is negative this selects the
highest-priority voice first, with the lower current volume as the tiebreak
within equal priority: among active voices with priorities [2,2,1] and
volumes [0.9,0.1,1.0] the priority-2 volume-0.1 voice is picked (not the
priority-1 voice), and among equal priorities [2,2] with volumes [0.9,0.1]
the volume-0.1 voice is picked. -/
theorem C1_quietest_min_score :
    (∀ (s : OneShotState) (policy : Policy) (ts : List Voice) (pr now : Rat)
        (b : Bool) (s' : OneShotState) (eff : StealEffect),
      policy.stealStrategy = .stealQuietest →
      OneShotAudio.ensureCapacity s policy ts pr now = (b, s', some eff) →
      eff.victim ∈ s.active ∧
        ∀ w ∈ s.active, OneShotAudio.score eff.victim ≤ OneShotAudio.score w) ∧
    OneShotAudio.pickQuietest
      [⟨0, "t", 2, 9/10⟩, ⟨1, "t", 2, 1/10⟩, ⟨2, "t", 1, 1⟩] =
      some ⟨1, "t", 2, 1/10⟩ ∧
    OneShotAudio.pickQuietest [⟨0, "t", 2, 9/10⟩, ⟨1, "t", 2, 1/10⟩] =
      some ⟨1, "t", 2, 1/10⟩ := by
  refine ⟨?_, by decide, by decide⟩
  intro s policy ts pr now b s' eff hstrat hcap
  rcases ensureCapacity_cases s policy ts pr now with
    ⟨heq, _, _⟩ | ⟨heq, _⟩ | ⟨victim, hpick, _, _, _, heq⟩
  · rw [heq] at hcap
    exact absurd (congrArg (fun r => r.2.2) hcap) (by simp)
  · rw [heq] at hcap
    exact absurd (congrArg (fun r => r.2.2) hcap) (by simp)
  · rw [heq] at hcap
    have heff := Option.some.inj (congrArg (fun r => r.2.2) hcap)
    rw [hstrat] at hpick
    simp only [OneShotAudio.pickVictim] at hpick
    have hspec := pickQuietest_spec s.active victim hpick
    rw [← heff]
    exact hspec

/-- Witness for the amended C1 at the spec's example registry. -/
theorem C1_quietest_min_score_witness :
    (⟨1, "t", 2, 1/10⟩ : Voice) ∈ exQuietState.active ∧
    ∀ w ∈ exQuietState.active,
      OneShotAudio.score ⟨1, "t", 2, 1/10⟩ ≤ OneShotAudio.score w :=
  C1_quietest_min_score.1 exQuietState exQuietState.defaultPolicy
    ((alookup exQuietState.activeByTrack "t").getD []) 5 0 true
    (OneShotAudio.ensureCapacity exQuietState exQuietState.defaultPolicy
      ((alookup exQuietState.activeByTrack "t").getD []) 5 0).2.1
    ⟨⟨1, "t", 2, 1/10⟩, 0, 0, 3/25, 3/25⟩ (by decide) (by decide)

/-- C3: under `stealOldest`, the victim of a capacity check against a
reachable registry is the first (earliest-inserted) still-active voice of
the requesting track's set when that set is non-empty, else the first
globally active voice; since identities are assigned in admission order and
the registry keeps insertion order, the victim's identity is minimal in the
consulted set — a later-admitted voice is never chosen over an earlier
one. -/
theorem C3_steal_oldest (s : OneShotState) (name : String) (policy : Policy)
    (pr now : Rat) (b : Bool) (s' : OneShotState) (eff : StealEffect)
    (hreach : Reachable s)
    (hstrat : policy.stealStrategy = .stealOldest)
    (hcap : OneShotAudio.ensureCapacity s policy
      ((alookup s.activeByTrack name).getD []) pr now = (b, s', some eff)) :
    ((alookup s.activeByTrack name).getD [] ≠ [] →
      ((alookup s.activeByTrack name).getD []).head? = some eff.victim ∧
      ∀ w ∈ (alookup s.activeByTrack name).getD [], eff.victim.id ≤ w.id) ∧
    ((alookup s.activeByTrack name).getD [] = [] →
      s.active.head? = some eff.victim ∧
      ∀ w ∈ s.active, eff.victim.id ≤ w.id) := by
  have hinv := reachable_inv s hreach
  rcases ensureCapacity_cases s policy ((alookup s.activeByTrack name).getD []) pr now with
    ⟨heq, _, _⟩ | ⟨heq, _⟩ | ⟨victim, hpick, _, _, _, heq⟩
  · rw [heq] at hcap
    exact absurd (congrArg (fun r => r.2.2) hcap) (by simp)
  · rw [heq] at hcap
    exact absurd (congrArg (fun r => r.2.2) hcap) (by simp)
  · rw [heq] at hcap
    have heff := Option.some.inj (congrArg (fun r => r.2.2) hcap)
    have heffv : eff.victim = victim := by rw [← heff]
    rw [hstrat] at hpick
    simp only [OneShotAudio.pickVictim] at hpick
    constructor
    · intro hne
      cases hts : ((alookup s.activeByTrack name).getD []).head? with
      | none => exact absurd (List.head?_eq_none_iff.mp hts) hne
      | some w =>
          rw [hts] at hpick
          have hwv : w = victim := Option.some.inj hpick
          subst hwv
          have hsorted : idSorted ((alookup s.activeByTrack name).getD []) := by
            cases hlk : alookup s.activeByTrack name with
            | none => simp [idSorted]
            | some l =>
                simp only [Option.getD_some]
                exact hinv.tracksSorted _ (alookup_mem _ _ _ hlk)
          refine ⟨by rw [heffv], ?_⟩
          rw [heffv]
          exact idSorted_head_min _ hsorted w hts
    · intro hempty
      rw [hempty] at hpick
      simp only [List.head?_nil] at hpick
      refine ⟨by rw [hpick, heffv], ?_⟩
      rw [heffv]
      exact idSorted_head_min _ hinv.activeSorted victim hpick

/-- Witness for C3: one active voice on track `"a"`, the capacity check
evicts exactly it. -/
theorem C3_steal_oldest_witness :
    ((alookup exStealState.activeByTrack "a").getD [] ≠ [] →
      ((alookup exStealState.activeByTrack "a").getD []).head? =
        some (⟨⟨0, "a", 0, 1⟩, 1, 0, 28/25, 28/25⟩ : StealEffect).victim ∧
      ∀ w ∈ (alookup exStealState.activeByTrack "a").getD [],
        (⟨⟨0, "a", 0, 1⟩, 1, 0, 28/25, 28/25⟩ : StealEffect).victim.id ≤ w.id) ∧
    ((alookup exStealState.activeByTrack "a").getD [] = [] →
      exStealState.active.head? =
        some (⟨⟨0, "a", 0, 1⟩, 1, 0, 28/25, 28/25⟩ : StealEffect).victim ∧
      ∀ w ∈ exStealState.active,
        (⟨⟨0, "a", 0, 1⟩, 1, 0, 28/25, 28/25⟩ : StealEffect).victim.id ≤ w.id) :=
  C3_steal_oldest exStealState "a" (OneShotAudio.getPolicy exStealState "a") 0 1 true
    (OneShotAudio.ensureCapacity exStealState (OneShotAudio.getPolicy exStealState "a")
      ((alookup exStealState.activeByTrack "a").getD []) 0 1).2.1
    ⟨⟨0, "a", 0, 1⟩, 1, 0, 28/25, 28/25⟩
    (Reachable.play _ "a" exOpts 0 (Reachable.init exCfgSteal))
    (by decide) (by decide)

/-- C4: the priority guard. A steal effect's victim never outranks the
requester; whenever the selected victim's priority strictly exceeds the new
voice's priority, `_ensureCapacity` fails with no state change and no fade;
and a failed capacity check makes `play` return `null` with the state — the
victim's registration included — untouched. -/
theorem C4_priority_guard (s : OneShotState) (policy : Policy) (ts : List Voice)
    (pr now : Rat) :
    (∀ (b : Bool) (s' : OneShotState) (eff : StealEffect),
      OneShotAudio.ensureCapacity s policy ts pr now = (b, s', some eff) →
      eff.victim.priority ≤ pr) ∧
    (∀ victim : Voice,
      OneShotAudio.pickVictim s.active ts policy.stealStrategy = some victim →
      pr < victim.priority →
      (s.maxGlobalVoices ≤ s.active.length ∨ policy.maxVoices ≤ ts.length) →
      policy.stealStrategy ≠ .ignore →
      OneShotAudio.ensureCapacity s policy ts pr now = (false, s, none)) ∧
    (∀ (name : String) (opts : PlayOptions),
      OneShotAudio.ensureCapacity s (OneShotAudio.getPolicy s name)
        ((alookup s.activeByTrack name).getD [])
        (opts.priority.getD (OneShotAudio.getPolicy s name).priority) now =
        (false, s, none) →
      OneShotAudio.play s name opts now = (none, s, none)) := by
  refine ⟨?_, ?_, ?_⟩
  · intro b s' eff hcap
    rcases ensureCapacity_cases s policy ts pr now with
      ⟨heq, _, _⟩ | ⟨heq, _⟩ | ⟨victim, _, _, _, hple, heq⟩
    · rw [heq] at hcap
      exact absurd (congrArg (fun r => r.2.2) hcap) (by simp)
    · rw [heq] at hcap
      exact absurd (congrArg (fun r => r.2.2) hcap) (by simp)
    · rw [heq] at hcap
      have heff := Option.some.inj (congrArg (fun r => r.2.2) hcap)
      rw [← heff]
      exact hple
  · intro victim hpick hpr hfull hig
    have hc1 : ¬(¬(s.maxGlobalVoices ≤ s.active.length) ∧
        ¬(policy.maxVoices ≤ ts.length)) := by
      rcases hfull with h | h
      · exact fun hc => hc.1 h
      · exact fun hc => hc.2 h
    rw [OneShotAudio.ensureCapacity]
    simp only [if_neg hc1, if_neg hig, hpick, if_pos hpr]
  · intro name opts hcap
    rcases play_spec s name opts now with ⟨heq, _⟩ | ⟨s1, eff, hb, hr, hcap2, heq⟩
    · exact heq
    · rw [hcap] at hcap2
      exact absurd (congrArg Prod.fst hcap2) (by simp)

/-- Witness for C4: a single priority-5 voice occupies the only slot; a
priority-0 request selects it, the guard fires, the capacity check fails and
`play` returns `null` with the state unchanged. -/
theorem C4_priority_guard_witness :
    OneShotAudio.ensureCapacity exHiState (OneShotAudio.getPolicy exHiState "a")
      ((alookup exHiState.activeByTrack "a").getD []) 0 1 = (false, exHiState, none) ∧
    OneShotAudio.play exHiState "a" ⟨none, some 0, none⟩ 1 = (none, exHiState, none) := by
  have h := C4_priority_guard exHiState (OneShotAudio.getPolicy exHiState "a")
    ((alookup exHiState.activeByTrack "a").getD []) 0 1
  have h1 := h.2.1 ⟨0, "a", 5, 1⟩ (by decide) (by decide) (by decide) (by decide)
  exact ⟨h1, h.2.2 "a" ⟨none, some 0, none⟩ h1⟩

/-- C5: rate limiting. A `play` on a loaded track within the effective
minimum interval (the per-call override when given, else the resolved
policy's `minInterval`) of the track's recorded last start returns `null`
with no state change; a second call after an admitted one, under the
threshold, is rejected the same way; and a call that is not rate-limited is
only ever rejected by the capacity check. -/
theorem C5_rate_limit (s : OneShotState) (name : String) (opts : PlayOptions)
    (now : Rat) :
    (∀ last : Rat, name ∈ s.buffers →
      alookup s.lastStartAt name = some last →
      now - last <
        opts.minIntervalOverride.getD (OneShotAudio.getPolicy s name).minInterval →
      OneShotAudio.play s name opts now = (none, s, none)) ∧
    (∀ (v : Voice) (s' : OneShotState) (eff : Option StealEffect)
        (opts2 : PlayOptions) (now2 : Rat),
      OneShotAudio.play s name opts now = (some v, s', eff) →
      now2 - now <
        opts2.minIntervalOverride.getD (OneShotAudio.getPolicy s' name).minInterval →
      OneShotAudio.play s' name opts2 now2 = (none, s', none)) ∧
    (name ∈ s.buffers →
      OneShotAudio.rateLimited s name opts now = false →
      (OneShotAudio.play s name opts now).1 = none →
      OneShotAudio.ensureCapacity s (OneShotAudio.getPolicy s name)
        ((alookup s.activeByTrack name).getD [])
        (opts.priority.getD (OneShotAudio.getPolicy s name).priority) now =
        (false, s, none)) := by
  refine ⟨?_, ?_, ?_⟩
  · intro last hb hlast hlt
    have hrl : OneShotAudio.rateLimited s name opts now = true := by
      rw [OneShotAudio.rateLimited, hlast]
      exact decide_eq_true hlt
    rw [OneShotAudio.play, if_pos hb, hrl, if_pos rfl]
  · intro v s' eff opts2 now2 hplay hlt
    rcases play_spec s name opts now with ⟨heq, _⟩ | ⟨s1, eff1, hb, hr, hcap, heq⟩
    · rw [heq] at hplay
      exact absurd (congrArg Prod.fst hplay) (by simp)
    · rw [heq] at hplay
      have hs' : OneShotAudio.registerVoice s1 name
          { id := s.nextId, name := name,
            priority := opts.priority.getD (OneShotAudio.getPolicy s name).priority,
            volume := opts.volume.getD 1 } now = s' :=
        congrArg (fun r => r.2.1) hplay
      have hlast : alookup s'.lastStartAt name = some now := by
        rw [← hs']
        exact alookup_aset_self _ _ _
      have hrl : OneShotAudio.rateLimited s' name opts2 now2 = true := by
        rw [OneShotAudio.rateLimited, hlast]
        exact decide_eq_true hlt
      by_cases hb' : name ∈ s'.buffers
      · rw [OneShotAudio.play, if_pos hb', hrl, if_pos rfl]
      · rw [OneShotAudio.play, if_neg hb']
  · intro hb hrl hnull
    rcases play_spec s name opts now with ⟨heq, hor⟩ | ⟨s1, eff1, hb2, hr2, hcap, heq⟩
    · rcases hor with h | h | h
      · exact absurd hb h
      · rw [hrl] at h
        exact absurd h (by simp)
      · exact h
    · rw [heq] at hnull
      exact absurd hnull (by simp)

/-- Witness for C5: the second call on `"a"`, issued `0.01` after an
admitted one against the default `minInterval = 0.02`, returns `null`. -/
theorem C5_rate_limit_witness :
    OneShotAudio.play
        (OneShotAudio.play (OneShotAudio.init exCfgDefault) "a" exOpts 0).2.1
        "a" exOpts (1/100) =
      (none, (OneShotAudio.play (OneShotAudio.init exCfgDefault) "a" exOpts 0).2.1,
        none) :=
  (C5_rate_limit (OneShotAudio.init exCfgDefault) "a" exOpts 0).2.1
    ⟨0, "a", 0, 1⟩
    (OneShotAudio.play (OneShotAudio.init exCfgDefault) "a" exOpts 0).2.1
    none exOpts (1/100) (by decide) (by decide)

/-- C6: with a track resolved to `maxVoices = N` and the `'ignore'`
strategy, after `N` admitted plays with no completions every further play
on the track returns `null`; and whenever neither the global count is at or
over `maxGlobalVoices` nor the track count at or over `maxVoices`, the
capacity check succeeds immediately with no side effects. -/
theorem C6_ignore_capacity (s0 : OneShotState) (name : String)
    (calls : List (PlayOptions × Rat)) (sN : OneShotState) (N : Nat)
    (hplays : PlaysOk name s0 calls sN)
    (hig : (OneShotAudio.getPolicy s0 name).stealStrategy = .ignore)
    (hN : (OneShotAudio.getPolicy s0 name).maxVoices = N)
    (hlen : calls.length = N)
    (hstart : OneShotAudio.getActiveCount s0 (some name) = 0) :
    (∀ (opts : PlayOptions) (now : Rat),
      (OneShotAudio.play sN name opts now).1 = none) ∧
    (∀ (s : OneShotState) (policy : Policy) (ts : List Voice) (pr now : Rat),
      s.active.length < s.maxGlobalVoices → ts.length < policy.maxVoices →
      OneShotAudio.ensureCapacity s policy ts pr now = (true, s, none)) := by
  constructor
  · obtain ⟨hc, ht, hd, _⟩ := playsOk_ignore_count name s0 calls sN hplays hig
    have hpol : OneShotAudio.getPolicy sN name = OneShotAudio.getPolicy s0 name :=
      getPolicy_congr s0 sN name ht hd
    have hcount : OneShotAudio.getActiveCount sN (some name) = N := by
      rw [hc, hstart, hlen]
      simp
    intro opts now
    rcases play_spec sN name opts now with ⟨heq, _⟩ | ⟨s1, eff, hb, hr, hcap, heq⟩
    · rw [heq]
    · exfalso
      rcases ensureCapacity_cases sN (OneShotAudio.getPolicy sN name)
        ((alookup sN.activeByTrack name).getD [])
        (opts.priority.getD (OneShotAudio.getPolicy sN name).priority) now with
        ⟨h2, _, hlt⟩ | ⟨h2, _⟩ | ⟨victim, _, _, hig2, _, h2⟩
      · have hlen2 : ((alookup sN.activeByTrack name).getD []).length = N := hcount
        rw [hpol, hN, hlen2] at hlt
        exact absurd hlt (lt_irrefl N)
      · rw [hcap] at h2
        exact absurd (congrArg Prod.fst h2) (by simp)
      · rw [hpol, hig] at hig2
        exact hig2 rfl
  · intro s policy ts pr now h1 h2
    rw [OneShotAudio.ensureCapacity]
    rw [if_pos ⟨not_le.mpr h1, not_le.mpr h2⟩]

/-- Witness for C6 with `N = 1`: one admitted play on `"a"` under
`maxVoices = 1` and `'ignore'`; the next play returns `null`, and the
below-limit capacity check succeeds with no side effects. -/
theorem C6_ignore_capacity_witness :
    (OneShotAudio.play
      (OneShotAudio.play (OneShotAudio.init exCfgIgnore) "a" exOpts 0).2.1
      "a" exOpts 1).1 = none ∧
    OneShotAudio.ensureCapacity (OneShotAudio.init exCfgIgnore)
      (OneShotAudio.getPolicy (OneShotAudio.init exCfgIgnore) "a") [] 0 0 =
      (true, OneShotAudio.init exCfgIgnore, none) := by
  have h := C6_ignore_capacity (OneShotAudio.init exCfgIgnore) "a" [(exOpts, 0)]
    (OneShotAudio.play (OneShotAudio.init exCfgIgnore) "a" exOpts 0).2.1 1
    (PlaysOk.cons _ exOpts 0 ⟨0, "a", 0, 1⟩
      (OneShotAudio.play (OneShotAudio.init exCfgIgnore) "a" exOpts 0).2.1
      none [] _ (by decide) (PlaysOk.nil _))
    (by decide) (by decide) (by decide) (by decide)
  exact ⟨h.1 exOpts 1,
    h.2 (OneShotAudio.init exCfgIgnore)
      (OneShotAudio.getPolicy (OneShotAudio.init exCfgIgnore) "a") [] 0 0
      (by decide) (by decide)⟩

/-- C9: when a steal is admitted, the victim is out of both the global and
per-track registries in the state the capacity check hands back — and a
successful `play` registers the new voice over exactly that post-eviction
state, so the slot is freed synchronously before registration; the victim's
gain ramps linearly from its current value at `now` to `0` ending exactly
`stealFadeMs / 1000` seconds later (milliseconds converted internally), and
the node is scheduled to stop at that same fade-end time. -/
theorem C9_steal_fade (s : OneShotState) (name : String) (policy : Policy)
    (pr now : Rat) (b : Bool) (s' : OneShotState) (eff : StealEffect)
    (hreach : Reachable s)
    (hfade : 0 ≤ policy.stealFadeMs)
    (hcap : OneShotAudio.ensureCapacity s policy
      ((alookup s.activeByTrack name).getD []) pr now = (b, s', some eff)) :
    eff.victim ∉ s'.active ∧
    (∀ l, alookup s'.activeByTrack eff.victim.name = some l → eff.victim ∉ l) ∧
    eff.rampStart = now ∧
    eff.rampTargetValue = 0 ∧
    eff.rampEndTime = now + policy.stealFadeMs / 1000 ∧
    eff.stopTime = eff.rampEndTime ∧
    (∀ (opts : PlayOptions) (v : Voice) (s2 : OneShotState),
      OneShotAudio.play s name opts now = (some v, s2, some eff) →
      ∃ s1, OneShotAudio.ensureCapacity s (OneShotAudio.getPolicy s name)
          ((alookup s.activeByTrack name).getD [])
          (opts.priority.getD (OneShotAudio.getPolicy s name).priority) now =
          (true, s1, some eff) ∧
        s2 = OneShotAudio.registerVoice s1 name v now) := by
  have hinv := reachable_inv s hreach
  rcases ensureCapacity_cases s policy ((alookup s.activeByTrack name).getD []) pr now with
    ⟨heq, _, _⟩ | ⟨heq, _⟩ | ⟨victim, hpick, _, _, _, heq⟩
  · rw [heq] at hcap
    exact absurd (congrArg (fun r => r.2.2) hcap) (by simp)
  · rw [heq] at hcap
    exact absurd (congrArg (fun r => r.2.2) hcap) (by simp)
  · rw [heq] at hcap
    have hs' : OneShotAudio.evict s victim = s' := congrArg (fun r => r.2.1) hcap
    have heff := Option.some.inj (congrArg (fun r => r.2.2) hcap)
    have hvmem : victim ∈ s.active :=
      pickVictim_mem s name policy.stealStrategy hinv victim hpick
    obtain ⟨_, _, hnotin, hnotl⟩ := evict_inv s victim hinv hvmem
    have hvv : eff.victim = victim := by rw [← heff]
    have hmax : max 0 policy.stealFadeMs = policy.stealFadeMs := max_eq_right hfade
    refine ⟨?_, ?_, ?_, ?_, ?_, ?_, ?_⟩
    · rw [hvv, ← hs']
      exact hnotin
    · intro l hl
      rw [hvv] at hl ⊢
      rw [← hs'] at hl
      exact hnotl l hl
    · rw [← heff]
    · rw [← heff]
    · rw [← heff]
      show now + max 0 policy.stealFadeMs / 1000 = now + policy.stealFadeMs / 1000
      rw [hmax]
    · rw [← heff]
      show now + (if 0 < now + max 0 policy.stealFadeMs / 1000 - now
          then now + max 0 policy.stealFadeMs / 1000 - now else 0) =
        now + max 0 policy.stealFadeMs / 1000
      have hx : now + max 0 policy.stealFadeMs / 1000 - now =
          max 0 policy.stealFadeMs / 1000 := by ring
      rw [hx]
      by_cases h0 : 0 < max 0 policy.stealFadeMs / 1000
      · rw [if_pos h0]
      · have h1 : (0 : Rat) ≤ max 0 policy.stealFadeMs / 1000 :=
          div_nonneg (le_max_left _ _) (by norm_num)
        have h2 : max 0 policy.stealFadeMs / 1000 = 0 :=
          le_antisymm (not_lt.mp h0) h1
        rw [if_neg h0, h2, add_zero]
    · intro opts v s2 hplay
      rcases play_spec s name opts now with ⟨heq2, _⟩ | ⟨s1, eff1, hb, hr, hcap2, heq2⟩
      · rw [heq2] at hplay
        exact absurd (congrArg Prod.fst hplay) (by simp)
      · rw [heq2] at hplay
        have hv : ({ id := s.nextId, name := name,
                     priority := opts.priority.getD (OneShotAudio.getPolicy s name).priority,
                     volume := opts.volume.getD 1 } : Voice) = v := by
          have := congrArg Prod.fst hplay
          exact Option.some.inj this
        have hs2 : OneShotAudio.registerVoice s1 name
            { id := s.nextId, name := name,
              priority := opts.priority.getD (OneShotAudio.getPolicy s name).priority,
              volume := opts.volume.getD 1 } now = s2 :=
          congrArg (fun r => r.2.1) hplay
        have heff1 : eff1 = some eff := congrArg (fun r => r.2.2) hplay
        refine ⟨s1, ?_, ?_⟩
        · rw [← heff1]
          exact hcap2
        · rw [← hs2, hv]

/-- Witness for C9 at the single-voice `stealOldest` eviction: fade from
clock reading `1` over the default `stealFadeMs = 120`, ending (and
stopping) at `28/25 = 1 + 120/1000`. -/
theorem C9_steal_fade_witness :
    (⟨⟨0, "a", 0, 1⟩, 1, 0, 28/25, 28/25⟩ : StealEffect).victim ∉
      (OneShotAudio.ensureCapacity exStealState
        (OneShotAudio.getPolicy exStealState "a")
        ((alookup exStealState.activeByTrack "a").getD []) 0 1).2.1.active ∧
    (⟨⟨0, "a", 0, 1⟩, 1, 0, 28/25, 28/25⟩ : StealEffect).rampStart = 1 ∧
    (⟨⟨0, "a", 0, 1⟩, 1, 0, 28/25, 28/25⟩ : StealEffect).rampTargetValue = 0 ∧
    (⟨⟨0, "a", 0, 1⟩, 1, 0, 28/25, 28/25⟩ : StealEffect).rampEndTime =
      1 + (OneShotAudio.getPolicy exStealState "a").stealFadeMs / 1000 ∧
    (⟨⟨0, "a", 0, 1⟩, 1, 0, 28/25, 28/25⟩ : StealEffect).stopTime =
      (⟨⟨0, "a", 0, 1⟩, 1, 0, 28/25, 28/25⟩ : StealEffect).rampEndTime := by
  have h := C9_steal_fade exStealState "a" (OneShotAudio.getPolicy exStealState "a")
    0 1 true
    (OneShotAudio.ensureCapacity exStealState (OneShotAudio.getPolicy exStealState "a")
      ((alookup exStealState.activeByTrack "a").getD []) 0 1).2.1
    ⟨⟨0, "a", 0, 1⟩, 1, 0, 28/25, 28/25⟩
    (Reachable.play _ "a" exOpts 0 (Reachable.init exCfgSteal))
    (by decide) (by decide)
  exact ⟨h.1, h.2.2.1, h.2.2.2.1, h.2.2.2.2.1, h.2.2.2.2.2.1⟩

end Giallarhorn
